import Mathlib

/-!
Verification development for a static-site note generator consisting of two
Python pipelines:

  * tools/generate_notes.py — ingest: parse raw text notes, render HTML
    articles, and insert links into the recent-updates list of index.html.
  * tools/rebuild.py — rebuild: reparse rendered HTML articles back into
    records and regenerate aggregate pages.

Strings are modelled as lists of characters.  Python string operations
(strip, splitlines, replace, substring search) are embedded as executable
functions; the regular expressions used by the source are embedded as
deterministic scanners that implement the leftmost-match / lazy / greedy
backtracking semantics of the concrete patterns involved (the patterns are
simple enough that their matching behaviour is deterministic, as explained
at each definition).

Modelling notes:
  * Python character classes for whitespace and digits cover Unicode; the
    embedding restricts whitespace to Python's whitespace set and digits to
    the ASCII digits, since all strings manipulated by the program are
    produced from ASCII patterns or compared against ASCII/CJK literals.
  * Exceptions are modelled by Option: none is a raised error.
-/

namespace Site

/-- Strings are lists of characters. -/
abbrev Str := List Char

/-! ## Character classes -/

/-- Python whitespace characters (str.strip with no argument, and the
whitespace class of regular expressions on text strings). -/
def isPyWs (c : Char) : Bool :=
  c = ' ' || c = '\t' || c = '\n' || c = '\r' ||
  c = Char.ofNat 11 || c = Char.ofNat 12 ||
  c = Char.ofNat 28 || c = Char.ofNat 29 || c = Char.ofNat 30 || c = Char.ofNat 31 ||
  c = Char.ofNat 0x85 || c = Char.ofNat 0xA0 || c = Char.ofNat 0x1680 ||
  (Char.ofNat 0x2000 ≤ c && c ≤ Char.ofNat 0x200A) ||
  c = Char.ofNat 0x2028 || c = Char.ofNat 0x2029 ||
  c = Char.ofNat 0x202F || c = Char.ofNat 0x205F || c = Char.ofNat 0x3000

/-- Line boundary characters of Python str.splitlines (CR LF is treated as a
single boundary by the splitter itself). -/
def isLineBreak (c : Char) : Bool :=
  c = '\n' || c = '\r' ||
  c = Char.ofNat 11 || c = Char.ofNat 12 ||
  c = Char.ofNat 28 || c = Char.ofNat 29 || c = Char.ofNat 30 ||
  c = Char.ofNat 0x85 || c = Char.ofNat 0x2028 || c = Char.ofNat 0x2029

/-- ASCII decimal digit. -/
def isDigitC (c : Char) : Bool := '0' ≤ c && c ≤ '9'

/-! ## Python string primitives -/

/-- Python str.lstrip with no argument. -/
def pyLstrip (l : Str) : Str := l.dropWhile isPyWs

/-- Python str.rstrip with no argument. -/
def pyRstrip (l : Str) : Str := (l.reverse.dropWhile isPyWs).reverse

/-- Python str.strip with no argument. -/
def pyStrip (l : Str) : Str := pyRstrip (pyLstrip l)

/-- Python str.strip with an explicit set of characters to remove from both
ends. -/
def pyStripSet (cs : List Char) (l : Str) : Str :=
  ((l.dropWhile (fun c => c ∈ cs)).reverse.dropWhile (fun c => c ∈ cs)).reverse

/-- The byte order mark character. -/
def bomChar : Char := Char.ofNat 0xFEFF

/-- Python raw.strip with the BOM character as argument. -/
def stripBOM (l : Str) : Str :=
  ((l.dropWhile (fun c => c = bomChar)).reverse.dropWhile (fun c => c = bomChar)).reverse

/-- Helper of pySplitlines: cur is the current line accumulated in reverse. -/
def splitlinesAux (cur : Str) : Str → List Str
  | [] => if cur = [] then [] else [cur.reverse]
  | '\r' :: '\n' :: t => cur.reverse :: splitlinesAux [] t
  | c :: t =>
    if isLineBreak c then cur.reverse :: splitlinesAux [] t
    else splitlinesAux (c :: cur) t

/-- Python str.splitlines. -/
def pySplitlines (l : Str) : List Str := splitlinesAux [] l

/-- Helper of splitOnDash: cur is the current field accumulated in reverse. -/
def splitOnDashAux (cur : Str) : Str → List Str
  | [] => [cur.reverse]
  | '-' :: t => cur.reverse :: splitOnDashAux [] t
  | c :: t => splitOnDashAux (c :: cur) t

/-- Split a string at every dash (Python str.split with a dash). -/
def splitOnDash (l : Str) : List Str := splitOnDashAux [] l

/-- First index of an occurrence of needle (Python str.find, with none for
not found). -/
def findSub (needle : Str) : Str → Option Nat
  | [] => if needle.isPrefixOf ([] : Str) then some 0 else none
  | c :: t =>
    if needle.isPrefixOf (c :: t) then some 0
    else (findSub needle t).map (· + 1)

/-- Split at the first occurrence of needle: returns the part before the
occurrence and the part after it. -/
def splitFirst (needle : Str) : Str → Option (Str × Str)
  | [] => if needle.isPrefixOf ([] : Str) then some ([], []) else none
  | c :: t =>
    if needle.isPrefixOf (c :: t) then some ([], (c :: t).drop needle.length)
    else (splitFirst needle t).map (fun p => (c :: p.1, p.2))

/-- Substring test (the Python in operator on strings). -/
def containsSub (needle : Str) : Str → Bool
  | [] => needle.isPrefixOf ([] : Str)
  | c :: t => needle.isPrefixOf (c :: t) || containsSub needle t

/-- Replace every occurrence of one character by another
(Python str.replace with single-character arguments). -/
def replace1 (a b : Char) (l : Str) : Str :=
  l.map (fun c => if c = a then b else c)

/-- Replace every occurrence of a two-character needle by a two-character
replacement, scanning left to right without overlap
(Python str.replace with two-character arguments of equal length). -/
def replace2 (n1 n2 r1 r2 : Char) : Str → Str
  | [] => []
  | [c] => [c]
  | c :: d :: t =>
    if c = n1 ∧ d = n2 then r1 :: r2 :: replace2 n1 n2 r1 r2 t
    else c :: replace2 n1 n2 r1 r2 (d :: t)

/-! ## Dates: the strptime format used by both tools -/

/-- Numeric value of a digit string. -/
def toNatDigits (l : Str) : Nat :=
  l.foldl (fun n c => 10 * n + (c.toNat - '0'.toNat)) 0

/-- Gregorian leap year. -/
def isLeap (y : Nat) : Bool := y % 4 = 0 && (y % 100 ≠ 0 || y % 400 = 0)

/-- Days in a month. -/
def daysInMonth (y m : Nat) : Nat :=
  if m = 2 then (if isLeap y then 29 else 28)
  else if m = 4 || m = 6 || m = 9 || m = 11 then 30
  else 31

/-- Python datetime.strptime with format Y-m-d, restricted to ASCII digits.
The compiled pattern requires exactly four year digits, one or two month
digits with value 1..12, one or two day digits, and full consumption of the
string; constructing the datetime then requires year at least 1 and a day
valid for the month.  Returns the (year, month, day) triple on success. -/
def strptimeYMD (s : Str) : Option (Nat × Nat × Nat) :=
  match splitOnDash s with
  | [y, m, d] =>
    if y.length = 4 && y.all isDigitC &&
       m.all isDigitC && 1 ≤ m.length && m.length ≤ 2 &&
       d.all isDigitC && 1 ≤ d.length && d.length ≤ 2 then
      let Y := toNatDigits y
      let M := toNatDigits m
      let D := toNatDigits d
      if 1 ≤ Y && 1 ≤ M && M ≤ 12 && 1 ≤ D && D ≤ daysInMonth Y M then
        some (Y, M, D)
      else none
    else none
  | _ => none

/-- Whether strptime with format Y-m-d succeeds. -/
def strptimeOKB (s : Str) : Bool := (strptimeYMD s).isSome

/-! ## generate_notes.py : slug, parser, renderer -/

/-- The characters removed by INVALID_RE in generate_notes.py.  The source
builds the character class from a RAW string literal, which therefore
contains literal backslashes followed by the letters n, r and t rather
than the newline, carriage-return and tab characters; after escaping, the
class removes the nine punctuation characters, the backslash, and the
letters n, r and t, while the real control characters are left to the
whitespace collapse that follows. -/
def isInvalidFileChar (c : Char) : Bool :=
  c = '<' || c = '>' || c = ':' || c = '"' || c = '/' || c = '\\' ||
  c = '|' || c = '?' || c = '*' || c = 'n' || c = 'r' || c = 't'

/-- Helper for the whitespace-run collapse of sanitize_filename_component:
the flag records whether the previous character was whitespace, so that a
run of whitespace produces a single hyphen (the regex substitution of a
whitespace run by a hyphen). -/
def collapseWsAux : Bool → Str → Str
  | _, [] => []
  | prev, c :: t =>
    if isPyWs c then
      (if prev then collapseWsAux true t else '-' :: collapseWsAux true t)
    else c :: collapseWsAux false t

/-- Replace every whitespace run by a single hyphen. -/
def collapseWs (l : Str) : Str := collapseWsAux false l

/-- sanitize_filename_component from generate_notes.py: strip, delete the
characters of the INVALID_RE class (including, because of the raw string,
the letters n, r and t), collapse whitespace runs to hyphens, strip
spaces and dots from the ends, fall back to a placeholder when empty. -/
def sanitize_filename_component (s : Str) : Str :=
  let s1 := pyStrip s
  let s2 := s1.filter (fun c => !isInvalidFileChar c)
  let s3 := collapseWs s2
  let s4 := pyStripSet ['.', ' '] s3
  if s4 = [] then "untitled".data else s4

/-- The note record of generate_notes.py. -/
structure Note where
  title : Str
  date : Str
  body_paragraphs : List Str
  html_filename : Str
  href : Str
deriving DecidableEq, Repr

/-- parse_txt from generate_notes.py: strip the BOM, split into lines,
require a title line and a date line, validate the date with strptime,
collect the stripped non-blank remaining lines as paragraphs, and derive
the filename and href.  A raised error is modelled as none. -/
def parse_txt (raw : Str) : Option Note :=
  let r := stripBOM raw
  let lines := pySplitlines r
  if lines.length < 2 then none
  else
    let title := pyStrip (lines.getD 0 [])
    let date_str := pyStrip (lines.getD 1 [])
    if strptimeOKB date_str then
      let paragraphs := ((lines.drop 2).map pyStrip).filter (fun p => p ≠ [])
      let slug := sanitize_filename_component title
      let html_filename := date_str ++ "-".data ++ slug ++ ".html".data
      some ⟨title, date_str, paragraphs, html_filename,
            "./notes/".data ++ html_filename⟩
    else none

/-- One escaped character of html.escape with quote=True.  html.escape
performs sequential whole-string replacements starting with the ampersand,
which is equivalent to this character-wise map. -/
def escChar (c : Char) : Str :=
  if c = '&' then "&amp;".data
  else if c = '<' then "&lt;".data
  else if c = '>' then "&gt;".data
  else if c = '"' then "&quot;".data
  else if c = Char.ofNat 39 then "&#x27;".data
  else [c]

/-- Python html.escape with quote=True. -/
def pyEscape (l : Str) : Str := l.flatMap escChar

/-- The rendered block of one body paragraph in render_note_html. -/
def paraBlock (p : Str) : Str :=
  "      <p>\n        ".data ++ pyEscape p ++ "\n      </p>\n".data

/-- The list of paragraph blocks of render_note_html: one block per
paragraph, or the single placeholder block for an empty body. -/
def paraBlocks (ps : List Str) : List Str :=
  if ps = [] then ["      <p>（正文为空）</p>\n".data]
  else ps.map paraBlock

/-- The joined and right-stripped paragraph area of render_note_html. -/
def bodyHtml (note : Note) : Str :=
  pyRstrip (List.flatten (paraBlocks note.body_paragraphs))

/-- render_note_html from generate_notes.py: the full document template with
the escaped title (twice), the escaped date, and the paragraph area. -/
def render_note_html (note : Note) : Str :=
  "<!doctype html>\n<html lang=\"zh-CN\">\n<head>\n  <meta charset=\"utf-8\" />\n  <meta name=\"viewport\" content=\"width=device-width, initial-scale=1\" />\n  <title>".data
  ++ pyEscape note.title
  ++ "</title>\n  <link rel=\"stylesheet\" href=\"../style.css\" />\n</head>\n<body>\n  <main class=\"page\">\n\n    <header class=\"topbar\">\n      <a href=\"../index.html\">← 返回手稿集</a>\n    </header>\n\n    <article class=\"prose\">\n      <h1>".data
  ++ pyEscape note.title
  ++ "</h1>\n      <p class=\"meta\">".data
  ++ pyEscape note.date
  ++ "</p>\n\n".data
  ++ bodyHtml note
  ++ "\n    </article>\n\n    <footer class=\"footer\">\n      <p>© 绿色恐龙</p>\n    </footer>\n\n  </main>\n</body>\n</html>\n".data

/-! ## generate_notes.py : locating the recent-updates list in index.html

The pattern locating the card is
  section-open  lazy-gap  h2-open ws label ws h2-close  lazy-capture  section-close
with DOTALL.  A greedy whitespace star followed by a literal that starts
with a non-whitespace character is deterministic (it must consume the whole
whitespace run), so the heading part is a deterministic match; the two lazy
parts are implemented by scanning from the shortest candidate, which is
exactly the backtracking order of the engine. -/

/-- The literal opening the card section. -/
def sectionOpen : Str := "<section class=\"card\">".data

/-- The literal closing the card section. -/
def sectionClose : Str := "</section>".data

/-- The recent-updates heading label. -/
def recentLabel : Str := "最近更新".data

/-- Deterministic match of the heading part
h2-open, whitespace, label, whitespace, h2-close at the start of s; returns
the consumed text and the remainder. -/
def matchHeadingH2 (s : Str) : Option (Str × Str) :=
  if ("<h2>".data).isPrefixOf s then
    let t1 := s.drop 4
    let w1 := t1.takeWhile isPyWs
    let t2 := t1.dropWhile isPyWs
    if recentLabel.isPrefixOf t2 then
      let t3 := t2.drop recentLabel.length
      let w2 := t3.takeWhile isPyWs
      let t4 := t3.dropWhile isPyWs
      if ("</h2>".data).isPrefixOf t4 then
        some ("<h2>".data ++ w1 ++ recentLabel ++ w2 ++ "</h2>".data, t4.drop 5)
      else none
    else none
  else none

/-- Scan for the heading after the section-open literal, trying the
shortest gap first (lazy star), and require a later section-close
(continuing the scan when it is absent, as backtracking does); returns the
gap, the heading text, and the captured text up to the first
section-close. -/
def scanHeading : Str → Option (Str × Str × Str)
  | [] => none
  | c :: t =>
    match matchHeadingH2 (c :: t) with
    | some (hc, rest) =>
      match splitFirst sectionClose rest with
      | some (inner, _) => some ([], hc, inner)
      | none => (scanHeading t).map (fun p => (c :: p.1, p.2))
    | none => (scanHeading t).map (fun p => (c :: p.1, p.2))

/-- Leftmost match of the card pattern; returns group 0, the card block
from the section-open literal to the first section-close after the
heading. -/
def searchSection : Str → Option Str
  | [] => none
  | c :: t =>
    if sectionOpen.isPrefixOf (c :: t) then
      match scanHeading ((c :: t).drop sectionOpen.length) with
      | some (g, hc, inner) =>
        some (sectionOpen ++ g ++ hc ++ inner ++ sectionClose)
      | none => searchSection t
    else searchSection t

/-- The literal opening the list. -/
def ulOpenLit : Str := "<ul class=\"list\">".data

/-- The literal closing the list. -/
def ulClose : Str := "</ul>".data

/-- Scan for the closing group (whitespace star then the ul-close literal)
from the shortest candidate position (lazy capture); returns the captured
inner text and the matched closing group. -/
def scanUlClose : Str → Option (Str × Str)
  | [] => none
  | c :: t =>
    if ulClose.isPrefixOf ((c :: t).dropWhile isPyWs) then
      some ([], (c :: t).takeWhile isPyWs ++ ulClose)
    else (scanUlClose t).map (fun p => (c :: p.1, p.2))

/-- Leftmost match of the list pattern inside the card block: the ul-open
literal, its trailing whitespace run (greedy, part of group 1), the lazy
captured inner text (group 2), and the closing group (group 3). -/
def searchUl : Str → Option (Str × Str × Str)
  | [] => none
  | c :: t =>
    if ulOpenLit.isPrefixOf (c :: t) then
      let s := (c :: t).drop ulOpenLit.length
      match scanUlClose (s.dropWhile isPyWs) with
      | some (inner, close) =>
        some (ulOpenLit ++ s.takeWhile isPyWs, inner, close)
      | none => searchUl t
    else searchUl t

/-- extract_recent_updates_ul from generate_notes.py: locate the card block
and the list inside it, then re-locate both by first-occurrence search as
the source does, and return the document part up to and including the list
opening, the current list items, and the rest of the document.  A raised
error is modelled as none; the two find calls cannot fail because the
searched strings are substrings by construction. -/
def extract_recent_updates_ul (idx : Str) : Option (Str × Str × Str) :=
  match searchSection idx with
  | none => none
  | some card_block =>
    match searchUl card_block with
    | none => none
    | some (ul_open, ul_inner, ul_close) =>
      match findSub card_block idx, findSub ul_open card_block with
      | some start, some ul_start =>
        let before := idx.take start
        let after := idx.drop (start + card_block.length)
        let ul_end := ul_start + ul_open.length + ul_inner.length + ul_close.length
        some (before ++ card_block.take ul_start ++ ul_open, ul_inner,
              ul_close ++ card_block.drop ul_end ++ after)
      | _, _ => none

/-! ## generate_notes.py : link insertion -/

/-- index_has_href from generate_notes.py: the forward-slash spelling of
the href, or its backslash spelling, occurs in the index document. -/
def index_has_href (index_html href : Str) : Bool :=
  let h := replace1 '\\' '/' href
  let alt := replace1 '/' '\\' (replace2 '.' '/' '.' '\\' h)
  containsSub h index_html || containsSub alt index_html

/-- build_li from generate_notes.py. -/
def build_li (note : Note) : Str :=
  "        <li>\n          <a href=\"".data ++ note.href ++ "\">".data ++
  note.date ++ "｜".data ++ pyEscape note.title ++
  "</a>\n          <span class=\"tag\">随笔</span>\n        </li>\n\n".data

/-- Lexicographic strict comparison of strings by code point (Python string
comparison). -/
def strLtL : Str → Str → Bool
  | [], [] => false
  | [], _ :: _ => true
  | _ :: _, [] => false
  | a :: s, b :: t =>
    if a.toNat < b.toNat then true
    else if b.toNat < a.toNat then false
    else strLtL s t

/-- Non-strict string comparison. -/
def strLeL (a b : Str) : Bool := !(strLtL b a)

/-- Stable insertion: the new element goes before the first element m with
r m n, behind every earlier element (so a stable sort results, matching
the stable list sort of Python). -/
def insertLe (r : α → α → Bool) (n : α) : List α → List α
  | [] => [n]
  | m :: rest =>
    if r m n then n :: m :: rest
    else m :: insertLe r n rest

/-- Stable insertion sort with the given comparison. -/
def sortLe (r : α → α → Bool) : List α → List α
  | [] => []
  | n :: rest => insertLe r n (sortLe r rest)

/-- Stable sort of notes by the date field descending (the stable list
sort with reverse order used by the ingest orchestrator; the date field is
compared as a string). -/
def sortNotesByDateDesc : List Note → List Note :=
  sortLe (fun m n => strLeL m.date n.date)

/-- The notes actually inserted by main: those whose href is not already in
the index, sorted by date descending. -/
def toInsert (index_html : Str) (new_notes : List Note) : List Note :=
  sortNotesByDateDesc (new_notes.filter (fun n => !index_has_href index_html n.href))

/-- The index-update step of main in generate_notes.py (lines after the
nonempty-new-notes early return): extract the list location, filter and
sort the links to insert, and either leave the index unchanged (no write)
or prepend the new list items before the existing ones.  A raised error is
modelled as none. -/
def ingestIndexUpdate (index_html : Str) (new_notes : List Note) : Option Str :=
  match extract_recent_updates_ul index_html with
  | none => none
  | some (before_ul, ul_inner, after_ul) =>
    let to_insert := toInsert index_html new_notes
    if to_insert.isEmpty then some index_html
    else some (before_ul ++ List.flatten (to_insert.map build_li) ++ ul_inner ++ after_ul)

/-- The per-file loop of main in generate_notes.py: parse each raw file,
skipping (not aborting on) the ones that fail to parse, and skipping the
ones whose rendered file already exists. -/
def ingestCollectNotes (existsFile : Str → Bool) : List Str → List Note
  | [] => []
  | raw :: rest =>
    match parse_txt raw with
    | none => ingestCollectNotes existsFile rest
    | some n =>
      if existsFile n.html_filename then ingestCollectNotes existsFile rest
      else n :: ingestCollectNotes existsFile rest

/-! ## rebuild.py : recovering records from rendered articles -/

/-- Lowercase an ASCII letter (for the case-insensitive patterns). -/
def lowerC (c : Char) : Char :=
  if 'A' ≤ c && c ≤ 'Z' then Char.ofNat (c.toNat + 32) else c

/-- Case-insensitive prefix test. -/
def ciPrefix : Str → Str → Bool
  | [], _ => true
  | _ :: _, [] => false
  | a :: s, b :: t => lowerC a = lowerC b && ciPrefix s t

/-- Case-insensitive substring test. -/
def ciContains (needle : Str) : Str → Bool
  | [] => ciPrefix needle []
  | c :: t => ciPrefix needle (c :: t) || ciContains needle t

/-- Case-insensitive split at the first occurrence of needle. -/
def ciSplitFirst (needle : Str) : Str → Option (Str × Str)
  | [] => if ciPrefix needle [] then some ([], []) else none
  | c :: t =>
    if ciPrefix needle (c :: t) then some ([], (c :: t).drop needle.length)
    else (ciSplitFirst needle t).map (fun p => (c :: p.1, p.2))

/-- Helper of tag removal in strip_html: the flag records being inside a
tag.  The tag pattern (open bracket, one or more non-close characters,
close bracket) matches at an open bracket exactly when the next character
is not the closing bracket and a closing bracket occurs later; the greedy
run then extends to the first closing bracket. -/
def stripTagsAux : Bool → Str → Str
  | _, [] => []
  | true, c :: t => if c = '>' then stripTagsAux false t else stripTagsAux true t
  | false, c :: t =>
    if c = '<' && t.head? ≠ some '>' && t.contains '>' then stripTagsAux true t
    else c :: stripTagsAux false t

/-- Removal of HTML tags by the tag regular expression in strip_html. -/
def stripTags (l : Str) : Str := stripTagsAux false l

/-- Python html.unescape, restricted to the named and numeric entities that
the renderer of this program can emit (the escape function produces amp,
lt, gt, quot and hexadecimal 27) plus the apos and decimal 39 spellings;
other input is left unchanged.  The full html5 entity table is not
modelled. -/
def pyUnescape : Str → Str
  | [] => []
  | '&' :: 'a' :: 'm' :: 'p' :: ';' :: t => '&' :: pyUnescape t
  | '&' :: 'l' :: 't' :: ';' :: t => '<' :: pyUnescape t
  | '&' :: 'g' :: 't' :: ';' :: t => '>' :: pyUnescape t
  | '&' :: 'q' :: 'u' :: 'o' :: 't' :: ';' :: t => '"' :: pyUnescape t
  | '&' :: '#' :: 'x' :: '2' :: '7' :: ';' :: t => Char.ofNat 39 :: pyUnescape t
  | '&' :: '#' :: '3' :: '9' :: ';' :: t => Char.ofNat 39 :: pyUnescape t
  | '&' :: 'a' :: 'p' :: 'o' :: 's' :: ';' :: t => Char.ofNat 39 :: pyUnescape t
  | c :: t => c :: pyUnescape t

/-- strip_html from rebuild.py: unescape entities, remove tags, strip. -/
def strip_html (s : Str) : Str := pyStrip (stripTags (pyUnescape s))

/-- Match of the h1 pattern at the start of s (case-insensitive h1 open
tag, a greedy non-close-bracket run, the closing bracket, then the lazy
capture up to the first case-insensitive h1 close tag); returns group 1.
The greedy run followed by the mandatory closing bracket is deterministic:
it must extend to the first closing bracket. -/
def matchH1At (s : Str) : Option Str :=
  if ciPrefix "<h1".data s then
    let afterTag := s.drop 3
    match afterTag.dropWhile (fun c => c ≠ '>') with
    | '>' :: tail => (ciSplitFirst "</h1>".data tail).map Prod.fst
    | _ => none
  else none

/-- Leftmost match of the h1 pattern (RE_H1 search). -/
def searchH1 : Str → Option Str
  | [] => none
  | c :: t =>
    match matchH1At (c :: t) with
    | some g => some g
    | none => searchH1 t

/-- Match of the meta paragraph pattern at the start of s: case-insensitive
p open tag, a non-close-bracket run that must contain the class attribute
literal, the closing bracket, then the lazy capture up to the first
case-insensitive p close tag; returns group 1.  Whichever occurrence of
the attribute literal inside the run backtracking selects, the closing
bracket reached afterwards is the first one ending the run, so the capture
is the same. -/
def matchMetaAt (s : Str) : Option Str :=
  if ciPrefix "<p".data s then
    let afterTag := s.drop 2
    let run := afterTag.takeWhile (fun c => c ≠ '>')
    if ciContains "class=\"meta\"".data run then
      match afterTag.dropWhile (fun c => c ≠ '>') with
      | '>' :: tail => (ciSplitFirst "</p>".data tail).map Prod.fst
      | _ => none
    else none
  else none

/-- Leftmost match of the meta paragraph pattern (RE_META search). -/
def searchMeta : Str → Option Str
  | [] => none
  | c :: t =>
    match matchMetaAt (c :: t) with
    | some g => some g
    | none => searchMeta t

/-- Match of the date shape (four digits, dash, two digits, dash, two
digits) at the start of s; extra digits after the match are allowed, as in
the source pattern. -/
def dateShapeAt : Str → Option Str
  | a :: b :: c :: d :: '-' :: e :: f :: '-' :: g :: h :: _ =>
    if isDigitC a && isDigitC b && isDigitC c && isDigitC d &&
       isDigitC e && isDigitC f && isDigitC g && isDigitC h then
      some [a, b, c, d, '-', e, f, '-', g, h]
    else none
  | _ => none

/-- Leftmost match of the date shape (RE_DATE search). -/
def searchDate : Str → Option Str
  | [] => none
  | c :: t =>
    match dateShapeAt (c :: t) with
    | some d => some d
    | none => searchDate t

/-- The allowed tag vocabulary KNOWN_TAGS, in source order. -/
def knownTags : List Str :=
  ["随笔".data, "废话".data, "随画".data, "漫画".data, "段子".data, "英语".data]

/-- The known tag matching at the start of s, trying the alternatives in
vocabulary order (the alternation order of RE_TAG). -/
def tagAt (s : Str) : Option Str := knownTags.find? (fun t => t.isPrefixOf s)

/-- Leftmost match of the tag alternation (RE_TAG search). -/
def searchTag : Str → Option Str
  | [] => none
  | c :: t =>
    match tagAt (c :: t) with
    | some tg => some tg
    | none => searchTag t

/-- Index of the last occurrence of a character (Python str.rfind, with
none for not found). -/
def rfindChar (a : Char) (l : Str) : Option Nat :=
  match findSub [a] l.reverse with
  | some k => some (l.length - 1 - k)
  | none => none

/-- Python pathlib stem: the name without its suffix, where the suffix
starts at the last dot if that dot is neither the first nor the last
character. -/
def pyStem (name : Str) : Str :=
  match rfindChar '.' name with
  | some i => if 0 < i ∧ i < name.length - 1 then name.take i else name
  | none => name

/-- The date-shaped prefix of a filename required by the fallback in
parse_post: the date shape followed by a dash at the very start. -/
def fnDatePrefix (name : Str) : Option Str :=
  match name with
  | a :: b :: c :: d :: '-' :: e :: f :: '-' :: g :: h :: '-' :: _ =>
    if isDigitC a && isDigitC b && isDigitC c && isDigitC d &&
       isDigitC e && isDigitC f && isDigitC g && isDigitC h then
      some [a, b, c, d, '-', e, f, '-', g, h]
    else none
  | _ => none

/-- The record recovered from a rendered article in rebuild.py. -/
structure Post where
  file : Str
  href : Str
  title : Str
  date : Str
  tag : Str
  dt : Nat × Nat × Nat
deriving DecidableEq, Repr

/-- The meta text of parse_post: the stripped first meta paragraph, or
empty when no meta paragraph is found. -/
def metaText (html : Str) : Str :=
  match searchMeta html with
  | some g => strip_html g
  | none => []

/-- The title field of parse_post: the stripped first h1 text, else the
filename without extension. -/
def parsedTitle (html fname : Str) : Str :=
  match searchH1 html with
  | some g => strip_html g
  | none => pyStem fname

/-- The date field of parse_post: the first date-shaped substring of the
meta text, else the date-shaped prefix of the filename, else the epoch
placeholder. -/
def parsedDate (html fname : Str) : Str :=
  match searchDate (metaText html) with
  | some d => d
  | none =>
    match fnDatePrefix fname with
    | some d => d
    | none => "1970-01-01".data

/-- The tag field of parse_post: the first known tag occurring in the meta
text, else the default tag. -/
def parsedTag (html : Str) : Str :=
  match searchTag (metaText html) with
  | some t => t
  | none => "随笔".data

/-- parse_post from rebuild.py: recover title, date and tag with their
fallbacks, then validate the date with strptime; the strptime failure is a
raised error, modelled as none, which the rebuild main loop does not
catch. -/
def parse_post (html fname : Str) : Option Post :=
  match strptimeYMD (parsedDate html fname) with
  | none => none
  | some dt =>
    some ⟨fname, "./notes/".data ++ fname, parsedTitle html fname,
          parsedDate html fname, parsedTag html, dt⟩

/-- The per-file loop of main in rebuild.py over (content, filename) pairs:
any parse failure propagates and aborts the whole run. -/
def rebuildPosts : List (Str × Str) → Option (List Post)
  | [] => some []
  | (h, f) :: rest =>
    match parse_post h f with
    | none => none
    | some p => (rebuildPosts rest).map (p :: ·)

/-! ## rebuild.py : aggregation -/

/-- li from rebuild.py. -/
def liHtml (p : Post) : Str :=
  "        <li><a href=\"".data ++ p.href ++ "\">".data ++ p.date ++
  "｜".data ++ p.title ++ "</a><span class=\"tag\">".data ++ p.tag ++
  "</span></li>".data

/-- Lexicographic strict comparison of date triples. -/
def dtLtB : Nat × Nat × Nat → Nat × Nat × Nat → Bool
  | (y1, m1, d1), (y2, m2, d2) =>
    y1 < y2 || (y1 = y2 && (m1 < m2 || (m1 = m2 && d1 < d2)))

/-- Non-strict comparison of date triples. -/
def dtLeB (a b : Nat × Nat × Nat) : Bool := !(dtLtB b a)

/-- Stable sort of posts by parsed date descending (the stable list sort
with reverse order used by the source). -/
def sortPostsDesc : List Post → List Post :=
  sortLe (fun m n => dtLeB m.dt n.dt)

/-- The fixed preferred tag order of build_all_html. -/
def preferredTags : List Str := ["随笔".data, "废话".data, "随画".data]

/-- The group of one tag: iterating the posts and appending each to its
tag's bucket yields, per tag, the subsequence of posts with that tag, then
each bucket is sorted by date descending. -/
def groupOf (posts : List Post) (t : Str) : List Post :=
  sortPostsDesc (posts.filter (fun p => p.tag = t))

/-- The non-preferred tags in order of first appearance (dictionary
insertion order of the others buckets). -/
def otherKeys (posts : List Post) : List Str :=
  posts.foldl
    (fun acc p =>
      if p.tag ∈ preferredTags ∨ p.tag ∈ acc then acc else acc ++ [p.tag])
    []

/-- Ascending sort of strings by code point (Python sorted). -/
def sortStrAsc : List Str → List Str :=
  sortLe (fun u t => strLeL t u)

/-- The non-preferred tags sorted alphabetically. -/
def sortedOtherKeys (posts : List Post) : List Str :=
  sortStrAsc (otherKeys posts)

/-- The tag sections of build_all_html, as tag and sorted group pairs, in
emission order: the preferred tags first (also when their group is empty),
then the remaining tags sorted alphabetically. -/
def allGroups (posts : List Post) : List (Str × List Post) :=
  (preferredTags ++ sortedOtherKeys posts).map (fun t => (t, groupOf posts t))

/-- One tag section of build_all_html. -/
def sectionHtml (t : Str) (g : List Post) : Str :=
  "\n    <section class=\"card\" id=\"".data ++ t ++ "\">\n      <h2>".data ++
  t ++ "</h2>\n      <ul class=\"list\">\n".data ++
  (List.intercalate "\n".data (g.map liHtml)) ++
  "\n      </ul>\n    </section>".data

/-- The quick-jump pill of one tag in build_all_html. -/
def pillHtml (t : Str) : Str :=
  "<a class=\"pill\" href=\"#".data ++ t ++ "\">".data ++ t ++ "</a>".data

/-- The emitted tag sections of build_all_html, in order. -/
def buildAllSections (posts : List Post) : List Str :=
  (allGroups posts).map (fun p => sectionHtml p.1 p.2)

/-- build_all_html from rebuild.py: the full listing page, with the pills
and one section per tag group in emission order. -/
def build_all_html (posts : List Post) : Str :=
  "<!doctype html>\n<html lang=\"zh-CN\">\n<head>\n  <meta charset=\"utf-8\" />\n  <meta name=\"viewport\" content=\"width=device-width, initial-scale=1\" />\n  <title>查看全部｜绿色恐龙的手稿集</title>\n  <link rel=\"stylesheet\" href=\"./style.css\" />\n</head>\n<body>\n  <main class=\"page\">\n\n    <header class=\"topbar\">\n      <a href=\"./index.html\">← 返回首页</a>\n      <span style=\"opacity:.6\">｜</span>\n      <a href=\"./archive.html\">按年份</a>\n    </header>\n\n    <section class=\"card\">\n      <div class=\"card-head\">\n        <h2>查看全部</h2>\n        <div class=\"card-actions\">\n          <a class=\"smalllink\" href=\"./archive.html\">按年份 →</a>\n        </div>\n      </div>\n\n      <p class=\"desc\">按标签分区展示；也可以用浏览器搜索（Ctrl+F）找标题。</p>\n\n      <div class=\"quick\">\n        ".data ++
  (List.intercalate "\n        ".data
    ((preferredTags ++ sortedOtherKeys posts).map pillHtml)) ++
  "\n      </div>\n    </section>\n\n".data ++
  (List.intercalate "\n".data (buildAllSections posts)) ++
  "\n\n    <footer class=\"footer\">\n      <p>© <span id=\"year\"></span> xugaochen</p>\n    </footer>\n\n  </main>\n\n  <script>\n    document.getElementById(\"year\").textContent = new Date().getFullYear();\n  </script>\n</body>\n</html>\n".data

/-! ## rebuild.py : patching the recent list between markers -/

/-- The literal start marker comment. -/
def autogenStart : Str := "<!-- AUTOGEN_RECENT_START -->".data

/-- The literal end marker comment. -/
def autogenEnd : Str := "<!-- AUTOGEN_RECENT_END -->".data

/-- Whether a start marker occurrence is followed by an end marker (the
splice pattern, start marker then lazy gap then end marker with DOTALL,
matches somewhere). -/
def hasStartThenEnd : Str → Bool
  | [] => false
  | c :: t =>
    (autogenStart.isPrefixOf (c :: t) &&
     containsSub autogenEnd ((c :: t).drop autogenStart.length)) ||
    hasStartThenEnd t

/-- An item of a parsed substitution replacement template: a literal
character, or a reference to the whole match (group zero). -/
inductive TmplItem where
  | lit (c : Char)
  | group0
deriving DecidableEq, Repr

/-- ASCII letter. -/
def isAsciiLetter (c : Char) : Bool :=
  ('a' ≤ c && c ≤ 'z') || ('A' ≤ c && c ≤ 'Z')

/-- Octal digit. -/
def isOctDigit (c : Char) : Bool := '0' ≤ c && c ≤ '7'

/-- The control character denoted by a known letter escape of the
replacement template (the escape table of the re parser). -/
def knownEscape (c : Char) : Option Char :=
  if c = 'a' then some (Char.ofNat 7)
  else if c = 'b' then some (Char.ofNat 8)
  else if c = 'f' then some (Char.ofNat 12)
  else if c = 'n' then some '\n'
  else if c = 'r' then some '\r'
  else if c = 't' then some '\t'
  else if c = 'v' then some (Char.ofNat 11)
  else none

/-- Helper of parseTemplate with explicit fuel (the fuel, initially one
more than the string length, strictly dominates the number of steps, each
of which consumes at least one character). -/
def parseTemplateGo : Nat → Str → Option (List TmplItem)
  | 0, _ => none
  | _ + 1, [] => some []
  | fuel + 1, c :: t =>
    if c ≠ '\\' then (TmplItem.lit c :: ·) <$> parseTemplateGo fuel t
    else
      match t with
      | [] => none
      | e :: t2 =>
        if e = '\\' then (TmplItem.lit '\\' :: ·) <$> parseTemplateGo fuel t2
        else if e = 'g' then
          match t2 with
          | '<' :: t3 =>
            (match t3.dropWhile isDigitC with
             | '>' :: t4 =>
               if t3.takeWhile isDigitC ≠ [] ∧
                   toNatDigits (t3.takeWhile isDigitC) = 0 then
                 (TmplItem.group0 :: ·) <$> parseTemplateGo fuel t4
               else none
             | _ => none)
          | _ => none
        else if e = '0' then
          match t2 with
          | d1 :: d2 :: t3 =>
            if isOctDigit d1 && isOctDigit d2 then
              (TmplItem.lit (Char.ofNat (8 * (d1.toNat - 48) + (d2.toNat - 48))) :: ·)
                <$> parseTemplateGo fuel t3
            else if isOctDigit d1 then
              (TmplItem.lit (Char.ofNat (d1.toNat - 48)) :: ·)
                <$> parseTemplateGo fuel (d2 :: t3)
            else (TmplItem.lit (Char.ofNat 0) :: ·) <$> parseTemplateGo fuel t2
          | [d1] =>
            if isOctDigit d1 then
              (TmplItem.lit (Char.ofNat (d1.toNat - 48)) :: ·)
                <$> parseTemplateGo fuel ([] : Str)
            else (TmplItem.lit (Char.ofNat 0) :: ·) <$> parseTemplateGo fuel t2
          | [] => (TmplItem.lit (Char.ofNat 0) :: ·) <$> parseTemplateGo fuel t2
        else if isDigitC e then none
        else
          match knownEscape e with
          | some k => (TmplItem.lit k :: ·) <$> parseTemplateGo fuel t2
          | none =>
            if isAsciiLetter e then none
            else (fun r => TmplItem.lit '\\' :: TmplItem.lit e :: r)
              <$> parseTemplateGo fuel t2

/-- The parse of the re.sub replacement template, performed by re.sub
before any matching, for a pattern with no capture groups: a backslash
before a second backslash yields a backslash; a group reference written
with g, angle brackets and a name stands for the whole match when the
name is digits of value zero and raises otherwise (the splice pattern has
no groups, so every positive group number and every symbolic name is
unknown); a backslash before zero starts an octal escape of up to two
further octal digits; a backslash before a positive digit is a positive
group reference and raises; a known letter escape yields its control
character and any other ASCII letter after a backslash raises (a bad
escape, raised even when the pattern matches nowhere); a backslash before
any other character keeps both characters; a trailing backslash raises.
A raised re.error is modelled as none. -/
def parseTemplate (s : Str) : Option (List TmplItem) :=
  parseTemplateGo (s.length + 1) s

/-- Expansion of a parsed template at one match: literals stand for
themselves and the whole-match reference for the matched span. -/
def expandTmpl (matched : Str) (tmpl : List TmplItem) : Str :=
  tmpl.flatMap (fun it =>
    match it with
    | TmplItem.lit c => [c]
    | TmplItem.group0 => matched)

/-- Helper of subRecent with explicit fuel (the fuel, initially the string
length, strictly dominates the number of scanning steps): replace each
leftmost non-overlapping match of start marker, lazy gap, end marker by
the expanded template, continuing after the match as the substitution
does. -/
def subRecentGo (tmpl : List TmplItem) : Nat → Str → Str
  | 0, s => s
  | _ + 1, [] => []
  | fuel + 1, c :: t =>
    if autogenStart.isPrefixOf (c :: t) then
      match splitFirst autogenEnd ((c :: t).drop autogenStart.length) with
      | some (gap, post) =>
        expandTmpl (autogenStart ++ gap ++ autogenEnd) tmpl ++ subRecentGo tmpl fuel post
      | none => c :: subRecentGo tmpl fuel t
    else c :: subRecentGo tmpl fuel t

/-- The marker-delimited substitution of patch_index_recent. -/
def subRecent (tmpl : List TmplItem) (s : Str) : Str := subRecentGo tmpl s.length s

/-- The replacement string built by patch_index_recent: the start marker,
a newline, the freshly rendered recent list items, a newline with
indentation, and the end marker. -/
def recentReplacement (recent_posts : List Post) : Str :=
  autogenStart ++ "\n".data ++
    List.intercalate "\n".data (recent_posts.map liHtml) ++
    "\n        ".data ++ autogenEnd

/-- patch_index_recent from rebuild.py: require both markers to be present
somewhere (else a raised error, modelled as none), then substitute every
start-to-end span by the rendered replacement; the substitution first
parses the replacement as a template, an error path taken even when the
pattern matches nowhere. -/
def patch_index_recent (index_html : Str) (recent_posts : List Post) : Option Str :=
  if containsSub autogenStart index_html && containsSub autogenEnd index_html then
    match parseTemplate (recentReplacement recent_posts) with
    | none => none
    | some tmpl => some (subRecent tmpl index_html)
  else none

/-! ## Specification-side definition (used only to state a correction) -/

/-- Modelled from the spec: a strict calendar date string in the
four-digit-year, two-digit-month, two-digit-day dashed shape whose month
and day denote a valid calendar date.  This follows the specification
wording for the date line contract of the raw note parser, to be compared
with the strptime-based acceptance of the source. -/
def isStrictYMD (s : Str) : Bool :=
  match s with
  | [a, b, c, d, '-', e, f, '-', g, h] =>
    if isDigitC a && isDigitC b && isDigitC c && isDigitC d &&
       isDigitC e && isDigitC f && isDigitC g && isDigitC h then
      let Y := toNatDigits [a, b, c, d]
      let M := toNatDigits [e, f]
      let D := toNatDigits [g, h]
      1 ≤ Y && 1 ≤ M && M ≤ 12 && 1 ≤ D && D ≤ daysInMonth Y M
    else false
  | _ => false

/-! ## Helper lemmas: substring scanning -/

theorem splitFirst_eq {n : Str} :
    ∀ {h pre post : Str}, splitFirst n h = some (pre, post) → pre ++ n ++ post = h
  | [], pre, post => by
    simp only [splitFirst]
    split
    · rename_i hp
      rw [List.isPrefixOf_iff_prefix] at hp
      rw [List.prefix_nil] at hp
      intro he
      cases he
      simp [hp]
    · intro he; cases he
  | c :: t, pre, post => by
    simp only [splitFirst]
    split
    · rename_i hp
      rw [List.isPrefixOf_iff_prefix] at hp
      obtain ⟨s, hs⟩ := hp
      intro he
      cases he
      rw [← hs, List.drop_left]
      simp
    · intro he
      rw [Option.map_eq_some'] at he
      obtain ⟨⟨p1, p2⟩, hrec, hmk⟩ := he
      cases hmk
      have := splitFirst_eq hrec
      simpa using congrArg (c :: ·) this

theorem containsSub_eq_isSome_splitFirst {n : Str} :
    ∀ h : Str, containsSub n h = (splitFirst n h).isSome
  | [] => by
    simp only [containsSub, splitFirst]
    split <;> simp_all [Bool.eq_false_iff, List.isPrefixOf_iff_prefix, List.prefix_nil]
  | c :: t => by
    simp only [containsSub, splitFirst]
    split
    · simp_all
    · rename_i hp
      rw [containsSub_eq_isSome_splitFirst t]
      cases splitFirst n t <;> simp [hp]

theorem containsSub_infix_iff {n : Str} : ∀ {h : Str}, containsSub n h = true ↔ n <:+: h
  | [] => by
    simp only [containsSub]
    rw [List.isPrefixOf_iff_prefix, List.prefix_nil, List.infix_nil]
  | c :: t => by
    simp only [containsSub, Bool.or_eq_true, List.isPrefixOf_iff_prefix]
    rw [containsSub_infix_iff (h := t), List.infix_cons_iff]

theorem findSub_spec {n : Str} :
    ∀ {h : Str} {k : Nat}, findSub n h = some k →
      h.take k ++ n ++ h.drop (k + n.length) = h
  | [], k => by
    simp only [findSub]
    split
    · rename_i hp
      rw [List.isPrefixOf_iff_prefix, List.prefix_nil] at hp
      intro he
      cases he
      simp [hp]
    · intro he; cases he
  | c :: t, k => by
    simp only [findSub]
    split
    · rename_i hp
      rw [List.isPrefixOf_iff_prefix] at hp
      obtain ⟨s, hs⟩ := hp
      intro he
      cases he
      simp only [List.take_zero, List.nil_append, Nat.zero_add]
      rw [← hs, List.drop_left]
    · intro he
      rw [Option.map_eq_some'] at he
      obtain ⟨k0, hrec, hmk⟩ := he
      cases hmk
      have ih := findSub_spec hrec
      have h1 : (c :: t).take (k0 + 1) = c :: t.take k0 := rfl
      have h2 : (c :: t).drop (k0 + 1 + n.length) = t.drop (k0 + n.length) := by
        have : k0 + 1 + n.length = (k0 + n.length) + 1 := by omega
        rw [this]
        rfl
      rw [h1, h2]
      simpa using congrArg (c :: ·) ih

theorem findSub_isSome_of_isInf {n : Str} :
    ∀ {h : Str}, n <:+: h → (findSub n h).isSome = true
  | [] => by
    intro hin
    rw [List.infix_nil] at hin
    simp [findSub, hin, List.isPrefixOf_iff_prefix]
  | c :: t => by
    intro hin
    simp only [findSub]
    split
    · simp
    · rename_i hp
      rw [List.infix_cons_iff] at hin
      rcases hin with hpre | hinf
      · have hb : List.isPrefixOf n (c :: t) = true :=
          List.isPrefixOf_iff_prefix.mpr hpre
        simp_all
      · have := findSub_isSome_of_isInf hinf
        simpa using this

/-! ## Helper lemmas: string order -/

theorem char_eq_of_toNat_eq {a b : Char} (h : a.toNat = b.toNat) : a = b :=
  Char.ext (UInt32.ext h)

theorem strLtL_asymm : ∀ a b : Str, strLtL a b = true → strLtL b a = false
  | [], [] => by simp [strLtL]
  | [], _ :: _ => by simp [strLtL]
  | _ :: _, [] => by simp [strLtL]
  | a :: s, b :: t => by
    simp only [strLtL]
    by_cases h1 : a.toNat < b.toNat
    · simp [h1, Nat.lt_asymm h1]
    · by_cases h2 : b.toNat < a.toNat
      · simp [h1, h2]
      · simpa [h1, h2] using strLtL_asymm s t

theorem strLtL_eq_of_not_lt :
    ∀ a b : Str, strLtL a b = false → strLtL b a = false → a = b
  | [], [] => by simp
  | [], _ :: _ => by simp [strLtL]
  | _ :: _, [] => by simp [strLtL]
  | a :: s, b :: t => by
    by_cases h1 : a.toNat < b.toNat
    · simp [strLtL, h1]
    · by_cases h2 : b.toNat < a.toNat
      · simp [strLtL, h1, h2]
      · have hab : a = b := char_eq_of_toNat_eq (by omega)
        subst hab
        simp only [strLtL, h1, if_neg, h2, if_false, ite_self]
        intro hs ht
        rw [strLtL_eq_of_not_lt s t (by simpa [h1, h2] using hs)
          (by simpa [h1, h2] using ht)]

theorem strLtL_trans :
    ∀ a b c : Str, strLtL a b = true → strLtL b c = true → strLtL a c = true
  | _, [], [] => by simp [strLtL]
  | _, _ :: _, [] => by simp [strLtL]
  | [], [], _ :: _ => by simp [strLtL]
  | [], _ :: _, _ :: _ => by simp [strLtL]
  | _ :: _, [], _ :: _ => by simp [strLtL]
  | a :: s, b :: t, c :: u => by
    simp only [strLtL]
    by_cases h1 : a.toNat < b.toNat <;> by_cases h2 : b.toNat < c.toNat
    · have h3 := Nat.lt_trans h1 h2
      simp [h3]
    · by_cases h3 : c.toNat < b.toNat
      · simp [h2, h3]
      · have hbc : b = c := char_eq_of_toNat_eq (by omega)
        subst hbc
        simp [h1]
    · by_cases h0 : b.toNat < a.toNat
      · simp [h1, h0]
      · have hab : a = b := char_eq_of_toNat_eq (by omega)
        subst hab
        simp [h2]
    · by_cases h0 : b.toNat < a.toNat
      · simp [h1, h0]
      · by_cases h3 : c.toNat < b.toNat
        · simp [h2, h3]
        · have hab : a = b := char_eq_of_toNat_eq (by omega)
          have hbc : b = c := char_eq_of_toNat_eq (by omega)
          subst hab; subst hbc
          simp only [h1, if_neg, ite_self]
          intro hs ht
          have := strLtL_trans s t u (by simpa [h1] using hs) (by simpa [h2] using ht)
          simp [this, h1]

theorem strLeL_total : ∀ a b : Str, (strLeL a b || strLeL b a) = true := by
  intro a b
  simp only [strLeL, Bool.or_eq_true, Bool.not_eq_true']
  by_cases h : strLtL b a = true
  · right
    exact strLtL_asymm b a h
  · left
    simpa using h

theorem strLeL_trans {a b c : Str}
    (h1 : strLeL a b = true) (h2 : strLeL b c = true) : strLeL a c = true := by
  simp only [strLeL, Bool.not_eq_true'] at h1 h2 ⊢
  by_cases hca : strLtL c a = true
  · by_cases hbc : strLtL b c = true
    · exfalso
      have := strLtL_trans b c a hbc hca
      simp [this] at h1
    · have hbceq : b = c := strLtL_eq_of_not_lt b c (by simpa using hbc) h2
      subst hbceq
      simp [hca] at h1
  · simpa using hca

theorem dtLtB_iff {p q : Nat × Nat × Nat} :
    dtLtB p q = true ↔
      p.1 < q.1 ∨ (p.1 = q.1 ∧ (p.2.1 < q.2.1 ∨ (p.2.1 = q.2.1 ∧ p.2.2 < q.2.2))) := by
  obtain ⟨y1, m1, d1⟩ := p
  obtain ⟨y2, m2, d2⟩ := q
  simp [dtLtB]

theorem dtLeB_total : ∀ a b : Nat × Nat × Nat, (dtLeB a b || dtLeB b a) = true := by
  intro a b
  simp only [dtLeB, Bool.or_eq_true, Bool.not_eq_true']
  by_cases h : dtLtB b a = true
  · right
    rw [dtLtB_iff] at h
    rw [← Bool.not_eq_true, dtLtB_iff]
    omega
  · left
    simpa using h

theorem dtLeB_trans {a b c : Nat × Nat × Nat}
    (h1 : dtLeB a b = true) (h2 : dtLeB b c = true) : dtLeB a c = true := by
  simp only [dtLeB, Bool.not_eq_true'] at h1 h2 ⊢
  rw [← Bool.not_eq_true, dtLtB_iff] at h1 h2 ⊢
  omega

/-! ## Helper lemmas: stable insertion sort -/

theorem mem_insertLe {r : α → α → Bool} {n : α} :
    ∀ {l : List α} {x : α}, x ∈ insertLe r n l ↔ x = n ∨ x ∈ l
  | [], x => by simp [insertLe]
  | m :: rest, x => by
    simp only [insertLe]
    split
    · simp only [List.mem_cons]
    · simp only [List.mem_cons, mem_insertLe (l := rest)]
      tauto

theorem mem_sortLe {r : α → α → Bool} :
    ∀ {l : List α} {x : α}, x ∈ sortLe r l ↔ x ∈ l
  | [], x => by simp [sortLe]
  | n :: rest, x => by
    simp only [sortLe, mem_insertLe, mem_sortLe (l := rest), List.mem_cons]

theorem pairwise_insertLe {r : α → α → Bool}
    (total : ∀ a b, (r a b || r b a) = true)
    (trans : ∀ {a b c}, r a b = true → r b c = true → r a c = true) {n : α} :
    ∀ {l : List α}, l.Pairwise (fun a b => r b a = true) →
      (insertLe r n l).Pairwise (fun a b => r b a = true) := by
  intro l
  induction l with
  | nil => intro hp; simp [insertLe]
  | cons m rest ih =>
    intro hp
    rw [List.pairwise_cons] at hp
    obtain ⟨hm, hrest⟩ := hp
    simp only [insertLe]
    split
    · rename_i hmn
      rw [List.pairwise_cons]
      refine ⟨?_, ?_⟩
      · intro x hx
        rcases List.mem_cons.mp hx with hxm | hxr
        · subst hxm; exact hmn
        · exact trans (hm x hxr) hmn
      · rw [List.pairwise_cons]
        exact ⟨hm, hrest⟩
    · rename_i hmn
      rw [List.pairwise_cons]
      refine ⟨?_, ?_⟩
      · intro x hx
        rcases mem_insertLe.mp hx with hxn | hxr
        · rw [hxn]
          have htot := total m n
          simp only [Bool.or_eq_true] at htot
          rcases htot with h | h
          · exact absurd h hmn
          · exact h
        · exact hm x hxr
      · exact ih hrest

theorem pairwise_sortLe {r : α → α → Bool}
    (total : ∀ a b, (r a b || r b a) = true)
    (trans : ∀ {a b c}, r a b = true → r b c = true → r a c = true) :
    ∀ l : List α, (sortLe r l).Pairwise (fun a b => r b a = true)
  | [] => by simp [sortLe]
  | n :: rest => by
    simp only [sortLe]
    exact pairwise_insertLe total trans (pairwise_sortLe total trans rest)

/-! ## Helper lemmas: dropWhile, takeWhile, strip ends -/

theorem dropWhile_head_not {p : α → Bool} :
    ∀ {l : List α} {c : α}, (l.dropWhile p).head? = some c → p c = false
  | [], c => by simp
  | a :: t, c => by
    rw [List.dropWhile_cons]
    split
    · exact dropWhile_head_not (l := t)
    · rename_i h
      intro he
      rw [List.head?_cons, Option.some_inj] at he
      rw [← he]
      simpa using h

theorem getLast?_of_suffix_ne_nil {s l : List α} (h : s <:+ l) (hne : s ≠ []) :
    s.getLast? = l.getLast? := by
  obtain ⟨pre, hp⟩ := h
  rw [← hp, List.getLast?_append_of_ne_nil _ hne]

theorem drop_takeWhile_length (p : α → Bool) (l : List α) :
    l.drop (l.takeWhile p).length = l.dropWhile p := by
  induction l with
  | nil => rfl
  | cons a t ih =>
    rw [List.takeWhile_cons, List.dropWhile_cons]
    by_cases h : p a = true
    · simp only [h, if_true, List.length_cons, List.drop_succ_cons]
      exact ih
    · simp [h]

theorem dropWhile_append_of_all {p : α → Bool} :
    ∀ {w r : List α}, (∀ a ∈ w, p a = true) → (w ++ r).dropWhile p = r.dropWhile p
  | [], r => by simp
  | a :: w, r => by
    intro hall
    rw [List.cons_append, List.dropWhile_cons]
    have ha : p a = true := hall a (by simp)
    rw [if_pos ha]
    exact dropWhile_append_of_all (fun x hx => hall x (by simp [hx]))

theorem infix_dropWhile_not {p : α → Bool} {c0 : α} {nt : List α}
    (hc : p c0 = false) :
    ∀ {m : List α}, (c0 :: nt) <:+: m → (c0 :: nt) <:+: m.dropWhile p
  | [] => by intro h; simp at h
  | a :: m => by
    intro h
    rw [List.dropWhile_cons]
    split
    · rename_i ha
      rcases List.infix_cons_iff.mp h with hpre | hinf
      · exfalso
        obtain ⟨s, hs⟩ := hpre
        have : c0 = a := by
          have := congrArg List.head? hs
          simpa using this
        rw [this] at hc
        rw [hc] at ha
        cases ha
      · exact infix_dropWhile_not hc hinf
    · exact h

/-! ## Helper lemmas: sanitize_filename_component -/

theorem collapseWsAux_chars :
    ∀ (b : Bool) (l : Str) (c : Char), c ∈ collapseWsAux b l →
      c = '-' ∨ (c ∈ l ∧ isPyWs c = false)
  | b, [], c => by simp [collapseWsAux]
  | b, a :: t, c => by
    simp only [collapseWsAux]
    split
    · split
      · intro hmem
        rcases collapseWsAux_chars true t c hmem with h | ⟨h1, h2⟩
        · exact Or.inl h
        · exact Or.inr ⟨by simp [h1], h2⟩
      · intro hmem
        rcases List.mem_cons.mp hmem with h | hmem
        · exact Or.inl h
        · rcases collapseWsAux_chars true t c hmem with h | ⟨h1, h2⟩
          · exact Or.inl h
          · exact Or.inr ⟨by simp [h1], h2⟩
    · rename_i ha
      intro hmem
      rcases List.mem_cons.mp hmem with h | hmem
      · subst h
        exact Or.inr ⟨by simp, by simpa using ha⟩
      · rcases collapseWsAux_chars false t c hmem with h | ⟨h1, h2⟩
        · exact Or.inl h
        · exact Or.inr ⟨by simp [h1], h2⟩

theorem mem_pyStripSet {cs : List Char} {l : Str} {c : Char}
    (h : c ∈ pyStripSet cs l) : c ∈ l := by
  unfold pyStripSet at h
  rw [List.mem_reverse] at h
  have h2 := (List.dropWhile_suffix _).subset h
  rw [List.mem_reverse] at h2
  exact (List.dropWhile_suffix _).subset h2

theorem head_pyStripSet {cs : List Char} {l : Str} {c : Char}
    (h : (pyStripSet cs l).head? = some c) : c ∉ cs := by
  unfold pyStripSet at h
  rw [List.head?_reverse] at h
  have hne : (List.dropWhile (fun c => decide (c ∈ cs)) l).reverse.dropWhile
      (fun c => decide (c ∈ cs)) ≠ [] := by
    intro hz
    rw [hz] at h
    cases h
  rw [getLast?_of_suffix_ne_nil (List.dropWhile_suffix _) hne,
      List.getLast?_reverse] at h
  have := dropWhile_head_not h
  simpa using this

theorem getLast_pyStripSet {cs : List Char} {l : Str} {c : Char}
    (h : (pyStripSet cs l).getLast? = some c) : c ∉ cs := by
  unfold pyStripSet at h
  rw [List.getLast?_reverse] at h
  have := dropWhile_head_not (p := fun c => decide (c ∈ cs))
    (l := (List.dropWhile (fun c => decide (c ∈ cs)) l).reverse) h
  simpa using this

/-! ## Claim C2 -/

/-- C2 (amended): the raw note parser fails exactly when the text has
fewer than two lines, or the trimmed second line is not accepted by the
strptime year-month-day format as a valid calendar date.  The format
requires a four-digit year and month and day fields of one or two digits
denoting a valid calendar date, so a pattern-shaped but invalid date such
as 2024-02-30 fails; however, strictly two-digit month and day spellings
are not required, so the strict shape demanded by the original claim is
not necessary for success. -/
theorem c2_parse_txt_failure_iff (raw : Str) :
    parse_txt raw = none ↔
      ((pySplitlines (stripBOM raw)).length < 2 ∨
       strptimeOKB (pyStrip ((pySplitlines (stripBOM raw)).getD 1 [])) = false) := by
  by_cases h1 : (pySplitlines (stripBOM raw)).length < 2
  · simp [parse_txt, h1]
  · by_cases h2 : strptimeOKB (pyStrip ((pySplitlines (stripBOM raw)).getD 1 [])) = true
    · simp [parse_txt, h1, h2]
    · simp only [Bool.not_eq_true] at h2
      simp [parse_txt, h1, h2]

/-- C2 counterexample: on the raw text with second line 2024-3-5 the
parser succeeds although that line is not a strict two-digit-month,
two-digit-day calendar string, refuting the claim that parsing fails for
every non-strict date line. -/
theorem c2_counterexample :
    (parse_txt "T\n2024-3-5".data).isSome = true ∧
    2 ≤ (pySplitlines (stripBOM "T\n2024-3-5".data)).length ∧
    isStrictYMD (pyStrip ((pySplitlines (stripBOM "T\n2024-3-5".data)).getD 1 [])) = false := by
  refine ⟨?_, ?_, ?_⟩ <;> decide

/-! ## Claim C5 -/

/-- C5: the slug derived by sanitize_filename_component contains none of
the disallowed filesystem characters named by the claim (the nine
punctuation characters and backslash are removed by the character class,
and newline, carriage return and tab, whitespace untouched by the raw
character class, are replaced by the whitespace collapse) and no
whitespace at all (every whitespace run having been replaced by a
hyphen), neither starts nor ends with a dot or a space, is never empty,
and equals the fixed placeholder exactly when the cleaned string is
empty. -/
theorem c5_sanitize_slug_safe (s : Str) :
    sanitize_filename_component s ≠ [] ∧
    (∀ c ∈ sanitize_filename_component s,
        c ∉ ['<', '>', ':', '"', '/', '\\', '|', '?', '*', '\n', '\r', '\t'] ∧
        isPyWs c = false) ∧
    (∀ c, (sanitize_filename_component s).head? = some c → c ≠ '.' ∧ c ≠ ' ') ∧
    (∀ c, (sanitize_filename_component s).getLast? = some c → c ≠ '.' ∧ c ≠ ' ') ∧
    (pyStripSet ['.', ' ']
        (collapseWs ((pyStrip s).filter (fun c => !isInvalidFileChar c))) = [] →
      sanitize_filename_component s = "untitled".data) := by
  unfold sanitize_filename_component
  by_cases hz : pyStripSet ['.', ' ']
      (collapseWs ((pyStrip s).filter (fun c => !isInvalidFileChar c))) = []
  · rw [if_pos hz]
    refine ⟨by decide, ?_, ?_, ?_, fun _ => rfl⟩
    · decide
    · intro c hc
      rw [show ("untitled".data : Str).head? = some 'u' from rfl,
        Option.some_inj] at hc
      rw [← hc]
      exact ⟨by decide, by decide⟩
    · intro c hc
      rw [show ("untitled".data : Str).getLast? = some 'd' from rfl,
        Option.some_inj] at hc
      rw [← hc]
      exact ⟨by decide, by decide⟩
  · rw [if_neg hz]
    refine ⟨hz, ?_, ?_, ?_, fun hcon => absurd hcon hz⟩
    · intro c hc
      have hmem := mem_pyStripSet hc
      unfold collapseWs at hmem
      rcases collapseWsAux_chars false _ c hmem with h | ⟨h1, h2⟩
      · subst h
        exact ⟨by decide, by decide⟩
      · have hf := List.mem_filter.mp h1
        have hinv : isInvalidFileChar c = false := by simpa using hf.2
        refine ⟨?_, h2⟩
        intro hbad
        fin_cases hbad <;>
          first
            | exact absurd hinv (by decide)
            | exact absurd h2 (by decide)
    · intro c hc
      have := head_pyStripSet hc
      simp only [List.mem_cons, List.mem_singleton] at this
      exact ⟨fun hh => this (Or.inl hh), fun hh => this (Or.inr (by simp [hh]))⟩
    · intro c hc
      have := getLast_pyStripSet hc
      simp only [List.mem_cons, List.mem_singleton] at this
      exact ⟨fun hh => this (Or.inl hh), fun hh => this (Or.inr (by simp [hh]))⟩

/-- C5 witness: a concrete evaluation of the slug safety theorem on a
title containing unsafe characters. -/
theorem c5_witness :
    sanitize_filename_component " My/ bad*title.. ".data ≠ [] ∧
    (∀ c ∈ sanitize_filename_component " My/ bad*title.. ".data,
        c ∉ ['<', '>', ':', '"', '/', '\\', '|', '?', '*', '\n', '\r', '\t'] ∧
        isPyWs c = false) :=
  ⟨(c5_sanitize_slug_safe " My/ bad*title.. ".data).1,
   (c5_sanitize_slug_safe " My/ bad*title.. ".data).2.1⟩

/-! ## Claim C1 -/

/-- C1: a link whose target path already occurs in the index document, in
the forward-slash spelling or in the backslash spelling computed by
index_has_href, is filtered out by the ingest orchestrator and is
therefore not among the inserted links. -/
theorem c1_no_reinsert (idx : Str) (notes : List Note) (n : Note)
    (hocc : containsSub (replace1 '\\' '/' n.href) idx = true ∨
        containsSub
          (replace1 '/' '\\' (replace2 '.' '/' '.' '\\' (replace1 '\\' '/' n.href)))
          idx = true) :
    n ∉ toInsert idx notes := by
  intro hin
  unfold toInsert sortNotesByDateDesc at hin
  rw [mem_sortLe] at hin
  have hcond := (List.mem_filter.mp hin).2
  unfold index_has_href at hcond
  simp only [Bool.not_eq_true', Bool.or_eq_false_iff] at hcond
  rcases hocc with h | h
  · rw [h] at hcond
    exact absurd hcond.1 (by decide)
  · rw [h] at hcond
    exact absurd hcond.2 (by decide)

/-- C1 witness: a concrete index that already contains the link target in
forward-slash spelling, for which the note is not inserted. -/
theorem c1_witness :
    (⟨"T".data, "2024-01-02".data, [], "2024-01-02-T.html".data,
        "./notes/2024-01-02-T.html".data⟩ : Note) ∉
      toInsert "x ./notes/2024-01-02-T.html y".data
        [⟨"T".data, "2024-01-02".data, [], "2024-01-02-T.html".data,
          "./notes/2024-01-02-T.html".data⟩] :=
  c1_no_reinsert _ _ _ (Or.inl (by decide))

/-! ## Claim C10 -/

theorem subRecentGo_of_no_match (repl : List TmplItem) :
    ∀ (fuel : Nat) (s : Str), hasStartThenEnd s = false → subRecentGo repl fuel s = s := by
  intro fuel
  induction fuel with
  | zero => intro s _; rfl
  | succ f ih =>
    intro s hno
    match s with
    | [] => rfl
    | c :: t =>
      unfold hasStartThenEnd at hno
      rw [Bool.or_eq_false_iff, Bool.and_eq_false_iff] at hno
      obtain ⟨hhead, htail⟩ := hno
      simp only [subRecentGo]
      split
      · rename_i hpre
        rcases hhead with hcontra | hnoend
        · rw [hpre] at hcontra; cases hcontra
        · have : splitFirst autogenEnd ((c :: t).drop autogenStart.length) = none := by
            have hiff := containsSub_eq_isSome_splitFirst
              (n := autogenEnd) ((c :: t).drop autogenStart.length)
            rw [hnoend] at hiff
            cases hsf : splitFirst autogenEnd ((c :: t).drop autogenStart.length)
            · rfl
            · rw [hsf] at hiff; cases hiff
          rw [this]
          rw [ih t htail]
      · rw [ih t htail]

/-- The index document with the markers in reversed order. -/
def cIdx10 : Str :=
  "<!-- AUTOGEN_RECENT_END -->mid<!-- AUTOGEN_RECENT_START -->".data

/-- A post whose title carries a backslash escape that the substitution
template parser rejects. -/
def cBadPost10 : Post :=
  ⟨"b.html".data, "./notes/b.html".data, "a\\q".data, "2024-01-01".data,
    "随笔".data, (2024, 1, 1)⟩

set_option maxRecDepth 8192 in
/-- C10 counterexample: with both markers present, every start marker
after every end marker, and a recent post whose title contains a
backslash before the letter q, the patch operation raises (re.sub parses
the replacement template before matching and rejects the bad escape), so
it does not return the document unchanged as the claim states. -/
theorem c10_counterexample :
    containsSub autogenStart cIdx10 = true ∧
    containsSub autogenEnd cIdx10 = true ∧
    hasStartThenEnd cIdx10 = false ∧
    patch_index_recent cIdx10 [cBadPost10] = none :=
  ⟨by decide, by decide, by decide, by decide⟩

/-- C10 (amended): when both marker comments are present but every start
marker occurrence comes after every end marker (so the splice pattern
matches nowhere), and the rendered replacement is accepted by the
substitution template parser (in particular whenever the rendered list
items contain no backslash), patch_index_recent raises no error and
returns the index document unchanged; a rejected replacement escape makes
it raise even though the pattern matches nowhere. -/
theorem c10_markers_reversed_unchanged (idx : Str) (recent : List Post)
    (hs : containsSub autogenStart idx = true)
    (he : containsSub autogenEnd idx = true)
    (hno : hasStartThenEnd idx = false)
    (htmpl : (parseTemplate (recentReplacement recent)).isSome = true) :
    patch_index_recent idx recent = some idx := by
  unfold patch_index_recent
  rw [hs, he]
  simp only [Bool.and_self, if_true]
  rw [Option.isSome_iff_exists] at htmpl
  obtain ⟨tmpl, htm⟩ := htmpl
  rw [htm]
  show some (subRecent tmpl idx) = some idx
  unfold subRecent
  rw [subRecentGo_of_no_match tmpl idx.length idx hno]

/-- C10 witness: the markers in reversed order with an empty recent list,
whose replacement contains no backslash. -/
theorem c10_witness : patch_index_recent cIdx10 [] = some cIdx10 :=
  c10_markers_reversed_unchanged _ _ (by decide) (by decide) (by decide) (by decide)

/-! ## Claim C8 -/

/-- C8: a record whose recovered date string fails strptime is fatal in
the rebuild path (the whole run of rebuildPosts returns the error), while
a raw file that fails to parse in the ingest path is merely skipped and
the rest of the batch is still processed. -/
theorem c8_rebuild_fatal_ingest_skippable :
    (∀ (pre post : List (Str × Str)) (h f : Str),
        parse_post h f = none →
        rebuildPosts (pre ++ (h, f) :: post) = none) ∧
    (∀ (ex : Str → Bool) (pre post : List Str) (r : Str),
        parse_txt r = none →
        ingestCollectNotes ex (pre ++ r :: post) = ingestCollectNotes ex (pre ++ post)) := by
  constructor
  · intro pre
    induction pre with
    | nil =>
      intro post h f hfail
      simp only [List.nil_append, rebuildPosts, hfail]
    | cons q pre ih =>
      intro post h f hfail
      obtain ⟨qh, qf⟩ := q
      simp only [List.cons_append, rebuildPosts, List.append_eq]
      rw [ih post h f hfail]
      cases parse_post qh qf <;> rfl
  · intro ex pre
    induction pre with
    | nil =>
      intro post r hfail
      simp only [List.nil_append, ingestCollectNotes, hfail]
    | cons q pre ih =>
      intro post r hfail
      simp only [List.cons_append, ingestCollectNotes, List.append_eq]
      rw [ih post r hfail]

/-- C8 witness: a rendered article whose meta says 2024-13-01 aborts the
rebuild run, while a one-line raw file is skipped by the ingest loop. -/
theorem c8_witness :
    rebuildPosts [("<h1>T</h1><p class=\"meta\">2024-13-01</p>".data, "f.html".data)] = none ∧
    ingestCollectNotes (fun _ => false) ["x".data] = [] :=
  ⟨c8_rebuild_fatal_ingest_skippable.1 [] []
      "<h1>T</h1><p class=\"meta\">2024-13-01</p>".data "f.html".data (by decide),
   (c8_rebuild_fatal_ingest_skippable.2 (fun _ => false) [] [] "x".data (by decide)).trans rfl⟩

/-! ## Helper lemmas: the card-section scanner -/

theorem matchHeadingH2_spec {s hc rest : Str}
    (h : matchHeadingH2 s = some (hc, rest)) :
    hc ++ rest = s ∧
    ∃ w1 w2 : Str,
      hc = "<h2>".data ++ w1 ++ recentLabel ++ w2 ++ "</h2>".data := by
  unfold matchHeadingH2 at h
  simp only [] at h
  split at h
  case isFalse => simp at h
  rename_i hp1
  rw [List.isPrefixOf_iff_prefix] at hp1
  obtain ⟨u1, hu1⟩ := hp1
  split at h
  case isFalse => simp at h
  rename_i hp2
  rw [List.isPrefixOf_iff_prefix] at hp2
  obtain ⟨u2, hu2⟩ := hp2
  split at h
  case isFalse => simp at h
  rename_i hp3
  rw [List.isPrefixOf_iff_prefix] at hp3
  obtain ⟨u3, hu3⟩ := hp3
  rw [Option.some_inj, Prod.mk.injEq] at h
  obtain ⟨hhc, hrest⟩ := h
  have hsplit1 : u1.takeWhile isPyWs ++ u1.dropWhile isPyWs = u1 :=
    List.takeWhile_append_dropWhile isPyWs u1
  have hsplit2 : u2.takeWhile isPyWs ++ u2.dropWhile isPyWs = u2 :=
    List.takeWhile_append_dropWhile isPyWs u2
  have hd1 : s.drop 4 = u1 := by
    rw [← hu1]
    exact List.drop_left "<h2>".data u1
  rw [hd1] at hu2 hu3 hhc hrest
  have hd2 : (u1.dropWhile isPyWs).drop recentLabel.length = u2 := by
    rw [← hu2]
    exact List.drop_left recentLabel u2
  rw [hd2] at hu3 hhc hrest
  have hd3 : (u2.dropWhile isPyWs).drop 5 = u3 := by
    rw [← hu3]
    exact List.drop_left "</h2>".data u3
  rw [hd3] at hrest
  constructor
  · rw [← hhc, ← hrest]
    rw [← hu1]
    conv_rhs => rw [← hsplit1]
    rw [← hu2]
    conv_rhs => rw [← hsplit2]
    rw [← hu3]
    simp [List.append_assoc]
  · exact ⟨u1.takeWhile isPyWs, u2.takeWhile isPyWs, hhc.symm⟩

theorem scanHeading_spec :
    ∀ {s g hc inner : Str}, scanHeading s = some (g, hc, inner) →
      (g ++ hc ++ inner ++ sectionClose) <+: s ∧
      ∃ w1 w2 : Str,
        hc = "<h2>".data ++ w1 ++ recentLabel ++ w2 ++ "</h2>".data
  | [], g, hc, inner => by
    intro h
    simp [scanHeading] at h
  | c :: t, g, hc, inner => by
    intro h
    simp only [scanHeading] at h
    split at h
    · rename_i hmatch
      rename_i hcm restm
      split at h
      · rename_i hsf
        rename_i innerm postm
        rw [Option.some_inj, Prod.mk.injEq] at h
        obtain ⟨hg, h2⟩ := h
        rw [Prod.mk.injEq] at h2
        obtain ⟨hhc, hinner⟩ := h2
        subst hg
        subst hhc
        subst hinner
        obtain ⟨heq, hshape⟩ := matchHeadingH2_spec hmatch
        have hsp := splitFirst_eq hsf
        refine ⟨⟨postm, ?_⟩, hshape⟩
        rw [← heq, ← hsp]
        simp [List.append_assoc]
      · rw [Option.map_eq_some'] at h
        obtain ⟨⟨g0, hc0, inner0⟩, hrec, hmk⟩ := h
        rw [Prod.mk.injEq] at hmk
        obtain ⟨hg, h2⟩ := hmk
        rw [Prod.mk.injEq] at h2
        obtain ⟨hhc, hinner⟩ := h2
        subst hg; subst hhc; subst hinner
        obtain ⟨⟨r, hr⟩, hshape⟩ := scanHeading_spec hrec
        refine ⟨⟨r, ?_⟩, hshape⟩
        rw [← hr]
        simp
    · rw [Option.map_eq_some'] at h
      obtain ⟨⟨g0, hc0, inner0⟩, hrec, hmk⟩ := h
      rw [Prod.mk.injEq] at hmk
      obtain ⟨hg, h2⟩ := hmk
      rw [Prod.mk.injEq] at h2
      obtain ⟨hhc, hinner⟩ := h2
      subst hg; subst hhc; subst hinner
      obtain ⟨⟨r, hr⟩, hshape⟩ := scanHeading_spec hrec
      refine ⟨⟨r, ?_⟩, hshape⟩
      rw [← hr]
      simp

theorem searchSection_spec :
    ∀ {idx cb : Str}, searchSection idx = some cb →
      cb <:+: idx ∧
      ∃ g hc inner : Str,
        cb = sectionOpen ++ g ++ hc ++ inner ++ sectionClose ∧
        ∃ w1 w2 : Str,
          hc = "<h2>".data ++ w1 ++ recentLabel ++ w2 ++ "</h2>".data
  | [], cb => by
    intro h
    simp [searchSection] at h
  | c :: t, cb => by
    intro h
    simp only [searchSection] at h
    split at h
    · rename_i hpre
      rw [List.isPrefixOf_iff_prefix] at hpre
      obtain ⟨u, hu⟩ := hpre
      split at h
      · rename_i hscan
        rename_i g0 hc0 inner0
        rw [Option.some_inj] at h
        obtain ⟨⟨r, hr⟩, hshape⟩ := scanHeading_spec hscan
        have hdrop : (c :: t).drop sectionOpen.length = u := by
          rw [← hu]
          exact List.drop_left sectionOpen u
        rw [hdrop] at hr
        refine ⟨?_, g0, hc0, inner0, h.symm, hshape⟩
        refine List.IsPrefix.isInfix ⟨r, ?_⟩
        rw [← h, ← hu, ← hr]
        simp [List.append_assoc]
      · exact
          let ih := searchSection_spec h
          ⟨List.infix_cons ih.1, ih.2⟩
    · exact
        let ih := searchSection_spec h
        ⟨List.infix_cons ih.1, ih.2⟩

/-! ## Claim C3 -/

theorem recentLabel_infix_of_searchSection {idx cb : Str}
    (h : searchSection idx = some cb) : recentLabel <:+: idx := by
  obtain ⟨hinf, g, hc, inner, hcb, w1, w2, hhc⟩ := searchSection_spec h
  refine List.IsInfix.trans ?_ hinf
  rw [hcb, hhc]
  refine ⟨sectionOpen ++ g ++ "<h2>".data ++ w1,
      w2 ++ "</h2>".data ++ inner ++ sectionClose, ?_⟩
  simp [List.append_assoc]

/-- C3: a structurally deficient index document aborts the index update
instead of producing a modified document: in the ingest path a failed
extraction (in particular any document in which the recent-updates label
does not occur) makes the update operation return the error, and in the
rebuild path a document missing one of the two marker comments makes
patch_index_recent return the error. -/
theorem c3_structural_errors_fatal (idx : Str) (notes : List Note)
    (posts : List Post) :
    (extract_recent_updates_ul idx = none → ingestIndexUpdate idx notes = none) ∧
    (containsSub recentLabel idx = false → ingestIndexUpdate idx notes = none) ∧
    ((containsSub autogenStart idx && containsSub autogenEnd idx) = false →
      patch_index_recent idx posts = none) := by
  have hext : containsSub recentLabel idx = false →
      extract_recent_updates_ul idx = none := by
    intro hlab
    unfold extract_recent_updates_ul
    cases hss : searchSection idx with
    | none => rfl
    | some cb =>
      exfalso
      have hinf := recentLabel_infix_of_searchSection hss
      rw [← containsSub_infix_iff] at hinf
      rw [hlab] at hinf
      cases hinf
  refine ⟨?_, ?_, ?_⟩
  · intro hnone
    unfold ingestIndexUpdate
    rw [hnone]
  · intro hlab
    unfold ingestIndexUpdate
    rw [hext hlab]
  · intro hmark
    unfold patch_index_recent
    rw [hmark]
    rfl

/-- C3 witness: a document with no recent-updates section and no markers
aborts both update operations. -/
theorem c3_witness :
    ingestIndexUpdate "x".data [] = none ∧ patch_index_recent "x".data [] = none :=
  ⟨(c3_structural_errors_fatal "x".data [] []).2.1 (by decide),
   (c3_structural_errors_fatal "x".data [] []).2.2 (by decide)⟩

/-! ## Helper lemmas: the list scanner inside the card block -/

theorem scanUlClose_spec :
    ∀ {s i c : Str}, scanUlClose s = some (i, c) →
      (i ++ c) <+: s ∧ ∃ w2, (∀ a ∈ w2, isPyWs a = true) ∧ c = w2 ++ ulClose
  | [], i, c => by
    intro h
    simp [scanUlClose] at h
  | a :: t, i, c => by
    intro h
    simp only [scanUlClose] at h
    split at h
    · rename_i hcond
      rw [Option.some_inj, Prod.mk.injEq] at h
      obtain ⟨hi, hc⟩ := h
      subst hi
      rw [List.isPrefixOf_iff_prefix] at hcond
      obtain ⟨u, hu⟩ := hcond
      constructor
      · refine ⟨u, ?_⟩
        rw [← hc]
        conv_rhs => rw [← List.takeWhile_append_dropWhile isPyWs (a :: t), ← hu]
        simp [List.append_assoc]
      · exact ⟨(a :: t).takeWhile isPyWs,
          fun x hx => List.mem_takeWhile_imp hx, hc.symm⟩
    · rw [Option.map_eq_some'] at h
      obtain ⟨⟨i0, c0⟩, hrec, hmk⟩ := h
      rw [Prod.mk.injEq] at hmk
      obtain ⟨hi, hc⟩ := hmk
      subst hi; subst hc
      obtain ⟨⟨r, hr⟩, hshape⟩ := scanUlClose_spec hrec
      refine ⟨⟨r, ?_⟩, hshape⟩
      rw [← hr]
      simp

theorem scanUlClose_isSome_of_isInf :
    ∀ {s : Str}, ulClose <:+: s → (scanUlClose s).isSome = true
  | [] => by
    intro hin
    rw [List.infix_nil] at hin
    exact absurd hin (by decide)
  | a :: t => by
    intro hin
    simp only [scanUlClose]
    split
    · simp
    · rename_i hcond
      rcases List.infix_cons_iff.mp hin with hpre | hinf
      · exfalso
        have hpb := hpre
        obtain ⟨u, hu⟩ := hpre
        have ha : a = '<' := by
          have := congrArg List.head? hu
          simpa [ulClose] using this.symm
        have hdw : (a :: t).dropWhile isPyWs = a :: t := by
          rw [List.dropWhile_cons, if_neg]
          rw [ha]
          decide
        rw [hdw] at hcond
        rw [← List.isPrefixOf_iff_prefix] at hpb
        exact hcond hpb
      · have := scanUlClose_isSome_of_isInf hinf
        cases hsc : scanUlClose t
        · rw [hsc] at this; cases this
        · simp [hsc]

theorem searchUl_decomp :
    ∀ {x o i c : Str}, searchUl x = some (o, i, c) →
      ∃ w : Str, (∀ a ∈ w, isPyWs a = true) ∧ o = ulOpenLit ++ w ∧
      ∃ pre rest : Str, x = pre ++ o ++ i ++ c ++ rest ∧
      ∃ w2 : Str, c = w2 ++ ulClose
  | [], o, i, c => by
    intro h
    simp [searchUl] at h
  | a :: t, o, i, c => by
    intro h
    simp only [searchUl] at h
    split at h
    · rename_i hpre
      rw [List.isPrefixOf_iff_prefix] at hpre
      obtain ⟨u, hu⟩ := hpre
      have hdrop : (a :: t).drop ulOpenLit.length = u := by
        rw [← hu]
        exact List.drop_left ulOpenLit u
      split at h
      · rename_i hscan
        rename_i i0 c0
        rw [Option.some_inj, Prod.mk.injEq] at h
        obtain ⟨ho, h2⟩ := h
        rw [Prod.mk.injEq] at h2
        obtain ⟨hi, hc⟩ := h2
        rw [hdrop] at hscan ho
        obtain ⟨⟨r, hr⟩, w2, hw2ws, hcshape⟩ := scanUlClose_spec hscan
        refine ⟨u.takeWhile isPyWs, fun x hx => List.mem_takeWhile_imp hx,
          ho.symm, [], r, ?_, w2, hc ▸ hcshape⟩
        rw [← hu, ← ho, ← hi, ← hc]
        conv_lhs => rw [← List.takeWhile_append_dropWhile isPyWs u, ← hr]
        simp [List.append_assoc]
      · obtain ⟨w, hw, ho, p, r, ht, hcs⟩ := searchUl_decomp h
        exact ⟨w, hw, ho, a :: p, r, by rw [ht]; rfl, hcs⟩
    · obtain ⟨w, hw, ho, p, r, ht, hcs⟩ := searchUl_decomp h
      exact ⟨w, hw, ho, a :: p, r, by rw [ht]; rfl, hcs⟩

/-- The list match found by searchUl sits exactly at the first occurrence
of its opening group, so re-locating the opening group with a
first-occurrence search identifies the matched span: the captured inner
text and closing group follow the found occurrence. -/
theorem searchUl_findSub_prefix :
    ∀ {x o i c : Str}, searchUl x = some (o, i, c) →
      ∀ {k : Nat}, findSub o x = some k → (i ++ c) <+: x.drop (k + o.length)
  | [], o, i, c => by
    intro h
    simp [searchUl] at h
  | a :: t, o, i, c => by
    intro hsu k hfind
    simp only [searchUl] at hsu
    split at hsu
    · rename_i hpre
      split at hsu
      · rename_i hscan
        rw [Option.some_inj, Prod.mk.injEq] at hsu
        obtain ⟨ho, h2⟩ := hsu
        rw [Prod.mk.injEq] at h2
        obtain ⟨hi, hc⟩ := h2
        have hpp := hpre
        rw [List.isPrefixOf_iff_prefix] at hpp
        obtain ⟨u, hu⟩ := hpp
        have hdrop : (a :: t).drop ulOpenLit.length = u := by
          rw [← hu]
          exact List.drop_left ulOpenLit u
        rw [hdrop] at hscan ho
        have hopre : o.isPrefixOf (a :: t) = true := by
          rw [List.isPrefixOf_iff_prefix]
          refine ⟨u.dropWhile isPyWs, ?_⟩
          rw [← ho, ← hu]
          conv_rhs => rw [← List.takeWhile_append_dropWhile isPyWs u]
          simp [List.append_assoc]
        simp only [findSub] at hfind
        rw [if_pos hopre, Option.some_inj] at hfind
        subst hfind
        have holen : o.length = ulOpenLit.length + (u.takeWhile isPyWs).length := by
          rw [← ho, List.length_append]
        rw [Nat.zero_add, holen, ← hu, List.drop_append,
          drop_takeWhile_length]
        obtain ⟨hpref, _⟩ := scanUlClose_spec hscan
        rw [hi, hc] at hpref
        exact hpref
      · rename_i hscan
        by_cases hop : o.isPrefixOf (a :: t) = true
        · exfalso
          obtain ⟨w, hwws, hoeq, p, r, hteq, w2, hceq⟩ := searchUl_decomp hsu
          rw [List.isPrefixOf_iff_prefix] at hop
          obtain ⟨rest0, hrest0⟩ := hop
          have hx17 : (a :: t).drop ulOpenLit.length = w ++ rest0 := by
            rw [← hrest0, hoeq, List.append_assoc]
            exact List.drop_left ulOpenLit (w ++ rest0)
          have hdw : ((a :: t).drop ulOpenLit.length).dropWhile isPyWs
              = rest0.dropWhile isPyWs := by
            rw [hx17]
            exact dropWhile_append_of_all hwws
          have hrest0w : rest0 = t.drop (16 + w.length) := by
            have h1 : (a :: t).drop o.length = rest0 := by
              rw [← hrest0]
              exact List.drop_left o rest0
            have h2 : o.length = (16 + w.length) + 1 := by
              rw [hoeq, List.length_append]
              have hl : ulOpenLit.length = 17 := rfl
              omega
            rw [h2, List.drop_succ_cons] at h1
            exact h1.symm
          have hinf : ulClose <:+: rest0 := by
            rw [hrest0w]
            have ht2 : t = (p ++ o) ++ (i ++ (c ++ r)) := by
              rw [hteq]
              simp [List.append_assoc]
            rw [ht2]
            rw [List.drop_append_of_le_length (by
              rw [List.length_append, hoeq, List.length_append]
              have hl : ulOpenLit.length = 17 := rfl
              omega)]
            have hcin : ulClose <:+: c := ⟨w2, [], by simp [hceq]⟩
            refine hcin.trans ?_
            exact ⟨(p ++ o).drop (16 + w.length) ++ i, r, by simp [List.append_assoc]⟩
          have hsome :
              (scanUlClose (((a :: t).drop ulOpenLit.length).dropWhile isPyWs)).isSome
                = true := by
            rw [hdw]
            apply scanUlClose_isSome_of_isInf
            have hform : ulClose = '<' :: "/ul>".data := rfl
            rw [hform] at hinf ⊢
            exact infix_dropWhile_not (by decide) hinf
          rw [hscan] at hsome
          cases hsome
        · simp only [findSub] at hfind
          rw [if_neg hop, Option.map_eq_some'] at hfind
          obtain ⟨k0, hk0, hk⟩ := hfind
          have ih := searchUl_findSub_prefix hsu hk0
          have harith : k + o.length = (k0 + o.length) + 1 := by omega
          rw [harith, List.drop_succ_cons]
          exact ih
    · rename_i hpre
      obtain ⟨w, hwws, hoeq, p, r, hteq, w2, hceq⟩ := searchUl_decomp hsu
      by_cases hop : o.isPrefixOf (a :: t) = true
      · exfalso
        rw [List.isPrefixOf_iff_prefix] at hop
        have hlit : ulOpenLit <+: (a :: t) := by
          refine List.IsPrefix.trans ?_ hop
          rw [hoeq]
          exact List.prefix_append _ _
        rw [← List.isPrefixOf_iff_prefix] at hlit
        exact hpre hlit
      · simp only [findSub] at hfind
        rw [if_neg hop, Option.map_eq_some'] at hfind
        obtain ⟨k0, hk0, hk⟩ := hfind
        have ih := searchUl_findSub_prefix hsu hk0
        have harith : k + o.length = (k0 + o.length) + 1 := by omega
        rw [harith, List.drop_succ_cons]
        exact ih

/-! ## Claim C7 -/

/-- C7: on a structurally valid index document (one on which the
extraction succeeds) with a nonempty set of links to insert, the ingest
index update produces exactly the extracted part up to the list opening,
then the new list items, then the pre-existing list items, then the rest
of the document; the three extracted parts reassemble to the original
document, so everything outside the insertion point is unchanged; and the
inserted notes are sorted by their date field descending (the date field
is compared as a string). -/
theorem c7_insert_frame (idx : Str) (notes : List Note) (b i a : Str)
    (hex : extract_recent_updates_ul idx = some (b, i, a))
    (hne : toInsert idx notes ≠ []) :
    ingestIndexUpdate idx notes =
      some (b ++ List.flatten ((toInsert idx notes).map build_li) ++ i ++ a) ∧
    b ++ i ++ a = idx ∧
    (toInsert idx notes).Pairwise (fun m n => strLeL n.date m.date = true) := by
  have hemp : (toInsert idx notes).isEmpty = false := by
    cases he : (toInsert idx notes).isEmpty
    · rfl
    · exact absurd (List.isEmpty_iff.mp he) hne
  have hexo := hex
  refine ⟨?_, ?_, ?_⟩
  · unfold ingestIndexUpdate
    rw [hexo]
    simp only [hemp, Bool.false_eq_true, if_false]
  · unfold extract_recent_updates_ul at hex
    split at hex
    case h_1 => simp at hex
    rename_i cb hss
    split at hex
    case h_1 => simp at hex
    rename_i o ui uc hsu
    split at hex
    case h_2 => simp at hex
    rename_i start us hst hus
    simp only [Option.some_inj, Prod.mk.injEq] at hex
    obtain ⟨hb, hi, ha⟩ := hex
    have h1 := findSub_spec hst
    have h2 := findSub_spec hus
    have h3 := searchUl_findSub_prefix hsu hus
    obtain ⟨rest2, hr2⟩ := h3
    have h4 : cb.drop (us + o.length + ui.length + uc.length) = rest2 := by
      have hd : cb.drop (us + o.length + ui.length + uc.length) =
          (cb.drop (us + o.length)).drop (ui.length + uc.length) := by
        rw [List.drop_drop]
        congr 1
        omega
      rw [hd, ← hr2]
      have hlen : (ui ++ uc).length = ui.length + uc.length := List.length_append ui uc
      rw [← hlen]
      exact List.drop_left (ui ++ uc) rest2
    rw [← hb, ← hi, ← ha, h4]
    conv_rhs => rw [← h1, ← h2, ← hr2]
    simp only [List.append_assoc]
    have hcb2 : List.take us cb ++ (o ++ (ui ++ (uc ++ rest2))) = cb := by
      conv_rhs => rw [← h2, ← hr2]
      simp only [List.append_assoc]
    rw [hcb2]
  · unfold toInsert sortNotesByDateDesc
    exact pairwise_sortLe (fun (p q : Note) => strLeL_total p.date q.date)
      (fun hab hbc => strLeL_trans hab hbc) _

/-- C7 witness: a concrete structurally valid index and one new note. -/
theorem c7_witness :
    ingestIndexUpdate
        "A<section class=\"card\"><h2>最近更新</h2><ul class=\"list\"><li>old</li></ul></section>B".data
        [⟨"T".data, "2024-01-02".data, [], "2024-01-02-T.html".data,
          "./notes/2024-01-02-T.html".data⟩] =
      some ("A<section class=\"card\"><h2>最近更新</h2><ul class=\"list\">".data ++
        List.flatten
          ((toInsert
            "A<section class=\"card\"><h2>最近更新</h2><ul class=\"list\"><li>old</li></ul></section>B".data
            [⟨"T".data, "2024-01-02".data, [], "2024-01-02-T.html".data,
              "./notes/2024-01-02-T.html".data⟩]).map build_li) ++
        "<li>old</li>".data ++ "</ul></section>B".data) ∧
    "A<section class=\"card\"><h2>最近更新</h2><ul class=\"list\">".data ++
      "<li>old</li>".data ++ "</ul></section>B".data =
      "A<section class=\"card\"><h2>最近更新</h2><ul class=\"list\"><li>old</li></ul></section>B".data :=
  ⟨(c7_insert_frame _ _ _ _ _ (by decide) (by decide)).1,
   (c7_insert_frame
      "A<section class=\"card\"><h2>最近更新</h2><ul class=\"list\"><li>old</li></ul></section>B".data
      [⟨"T".data, "2024-01-02".data, [], "2024-01-02-T.html".data,
        "./notes/2024-01-02-T.html".data⟩]
      "A<section class=\"card\"><h2>最近更新</h2><ul class=\"list\">".data
      "<li>old</li>".data "</ul></section>B".data (by decide) (by decide)).2.1⟩

/-! ## Claim C6 -/

theorem mem_otherKeys_fold (t : Str) :
    ∀ (posts : List Post) (acc : List Str),
      (t ∈ posts.foldl
          (fun acc p =>
            if p.tag ∈ preferredTags ∨ p.tag ∈ acc then acc else acc ++ [p.tag])
          acc ↔
        t ∈ acc ∨ (t ∉ preferredTags ∧ ∃ p ∈ posts, p.tag = t))
  | [], acc => by simp
  | q :: ps, acc => by
    simp only [List.foldl_cons]
    rw [mem_otherKeys_fold t ps]
    by_cases hq : q.tag ∈ preferredTags ∨ q.tag ∈ acc
    · rw [if_pos hq]
      constructor
      · intro h
        rcases h with h | ⟨hnp, p, hp, hpt⟩
        · exact Or.inl h
        · exact Or.inr ⟨hnp, p, List.mem_cons_of_mem _ hp, hpt⟩
      · intro h
        rcases h with h | ⟨hnp, p, hp, hpt⟩
        · exact Or.inl h
        · rcases List.mem_cons.mp hp with he | hm
          · subst he
            rcases hq with h1 | h1
            · exact absurd (hpt ▸ h1) hnp
            · exact Or.inl (hpt ▸ h1)
          · exact Or.inr ⟨hnp, p, hm, hpt⟩
    · rw [if_neg hq]
      push_neg at hq
      obtain ⟨hq1, hq2⟩ := hq
      constructor
      · intro h
        rcases h with h | ⟨hnp, p, hp, hpt⟩
        · rcases List.mem_append.mp h with h | h
          · exact Or.inl h
          · rw [List.mem_singleton] at h
            subst h
            exact Or.inr ⟨hq1, q, List.mem_cons_self _ _, rfl⟩
        · exact Or.inr ⟨hnp, p, List.mem_cons_of_mem _ hp, hpt⟩
      · intro h
        rcases h with h | ⟨hnp, p, hp, hpt⟩
        · exact Or.inl (List.mem_append.mpr (Or.inl h))
        · rcases List.mem_cons.mp hp with he | hm
          · subst he
            exact Or.inl (List.mem_append.mpr (Or.inr (by simp [hpt])))
          · exact Or.inr ⟨hnp, p, hm, hpt⟩

/-- C6: the tag-grouped listing emits one section per tag, the preferred
tags first in their fixed order (also when their group is empty), followed
by the other encountered tags sorted alphabetically; every group holds
exactly the records carrying its tag, sorted by parsed date descending. -/
theorem c6_tag_grouping (posts : List Post) :
    ((allGroups posts).map Prod.fst = preferredTags ++ sortedOtherKeys posts) ∧
    (sortedOtherKeys posts).Pairwise (fun u v => strLeL u v = true) ∧
    (∀ t, t ∈ sortedOtherKeys posts ↔
      (t ∉ preferredTags ∧ ∃ p ∈ posts, p.tag = t)) ∧
    (∀ t g, (t, g) ∈ allGroups posts →
      (∀ p, p ∈ g ↔ (p ∈ posts ∧ p.tag = t)) ∧
      g.Pairwise (fun p q => dtLeB q.dt p.dt = true)) := by
  refine ⟨?_, ?_, ?_, ?_⟩
  · unfold allGroups
    rw [List.map_map]
    simp [Function.comp_def]
  · unfold sortedOtherKeys sortStrAsc
    exact pairwise_sortLe (fun u v => strLeL_total v u)
      (fun hab hbc => strLeL_trans hbc hab) _
  · intro t
    unfold sortedOtherKeys sortStrAsc
    rw [mem_sortLe]
    unfold otherKeys
    exact (mem_otherKeys_fold t posts []).trans (by simp)
  · intro t g hmem
    unfold allGroups at hmem
    rw [List.mem_map] at hmem
    obtain ⟨t0, ht0, heq⟩ := hmem
    rw [Prod.mk.injEq] at heq
    obtain ⟨ht, hg⟩ := heq
    subst ht
    constructor
    · intro p
      rw [← hg]
      unfold groupOf sortPostsDesc
      rw [mem_sortLe, List.mem_filter]
      simp only [decide_eq_true_eq]
    · rw [← hg]
      unfold groupOf sortPostsDesc
      exact pairwise_sortLe (fun (p q : Post) => dtLeB_total p.dt q.dt)
        (fun hab hbc => dtLeB_trans hab hbc) _

/-- A first concrete post for the listing example. -/
def cPostA : Post :=
  ⟨"a.html".data, "./notes/a.html".data, "A".data, "2024-01-01".data,
    "随笔".data, (2024, 1, 1)⟩

/-- A second concrete post for the listing example. -/
def cPostB : Post :=
  ⟨"b.html".data, "./notes/b.html".data, "B".data, "2025-01-01".data,
    "随笔".data, (2025, 1, 1)⟩

/-- A third concrete post for the listing example. -/
def cPostC : Post :=
  ⟨"c.html".data, "./notes/c.html".data, "C".data, "2024-06-01".data,
    "废话".data, (2024, 6, 1)⟩

/-- A fourth concrete post with a tag outside the preferred list. -/
def cPostD : Post :=
  ⟨"d.html".data, "./notes/d.html".data, "D".data, "2024-03-01".data,
    "闲聊".data, (2024, 3, 1)⟩

/-- The concrete post list of the listing example. -/
def cPosts6 : List Post := [cPostA, cPostB, cPostC, cPostD]

/-- C6 witness: the example with two preferred-tag groups, one empty
preferred group and one other tag yields sections in the stated order,
and the first group is exactly the records of its tag sorted by date
descending. -/
theorem c6_witness :
    ((allGroups cPosts6).map Prod.fst =
      ["随笔".data, "废话".data, "随画".data, "闲聊".data]) ∧
    (∀ p, p ∈ [cPostB, cPostA] ↔ (p ∈ cPosts6 ∧ p.tag = "随笔".data)) :=
  ⟨((c6_tag_grouping cPosts6).1).trans (by decide),
   ((c6_tag_grouping cPosts6).2.2.2 "随笔".data [cPostB, cPostA] (by decide)).1⟩

/-! ## Claim C4 -/

/-- C4: the reparser recovers the record by the exact fallback chain of
the source: the title is the stripped and unescaped text of the first h1
element, else the filename without extension; the date is the first
date-shaped substring of the meta element text, else the date-shaped
dash-terminated prefix of the filename, else the epoch placeholder; the
tag is the first known-vocabulary tag occurring in the meta text, else
the canonical default; a successfully parsed record carries exactly these
fields. -/
theorem c4_parse_post_fallbacks (html fname : Str) :
    (∀ g, searchH1 html = some g → parsedTitle html fname = strip_html g) ∧
    (searchH1 html = none → parsedTitle html fname = pyStem fname) ∧
    (∀ d, searchDate (metaText html) = some d → parsedDate html fname = d) ∧
    (searchDate (metaText html) = none →
      (∀ d, fnDatePrefix fname = some d → parsedDate html fname = d) ∧
      (fnDatePrefix fname = none → parsedDate html fname = "1970-01-01".data)) ∧
    (∀ t, searchTag (metaText html) = some t → parsedTag html = t) ∧
    (searchTag (metaText html) = none → parsedTag html = "随笔".data) ∧
    (∀ p, parse_post html fname = some p →
      p.title = parsedTitle html fname ∧ p.date = parsedDate html fname ∧
      p.tag = parsedTag html ∧ p.file = fname ∧
      p.href = "./notes/".data ++ fname) := by
  refine ⟨?_, ?_, ?_, ?_, ?_, ?_, ?_⟩
  · intro g hg
    unfold parsedTitle
    rw [hg]
  · intro hg
    unfold parsedTitle
    rw [hg]
  · intro d hd
    unfold parsedDate
    rw [hd]
  · intro hd
    constructor
    · intro d hfn
      unfold parsedDate
      rw [hd, hfn]
    · intro hfn
      unfold parsedDate
      rw [hd, hfn]
  · intro t ht
    unfold parsedTag
    rw [ht]
  · intro ht
    unfold parsedTag
    rw [ht]
  · intro p hp
    unfold parse_post at hp
    split at hp
    · cases hp
    · rw [Option.some_inj] at hp
      rw [← hp]
      exact ⟨rfl, rfl, rfl, rfl, rfl⟩

/-- The concrete rendered article of the reparser example. -/
def cHtml4 : Str := "<h1>Hello &amp; Hi</h1><p class=\"meta\">2024-05-06 随画</p>".data

/-- C4 witness: the fallback chain evaluated on an article with all three
fields present, and on an empty article whose filename carries the date. -/
theorem c4_witness :
    parsedTitle cHtml4 "x.html".data = "Hello & Hi".data ∧
    parsedDate cHtml4 "x.html".data = "2024-05-06".data ∧
    parsedTag cHtml4 = "随画".data ∧
    parsedTitle [] "2024-01-02-x.html".data = "2024-01-02-x".data ∧
    parsedDate [] "2024-01-02-x.html".data = "2024-01-02".data ∧
    parsedTag [] = "随笔".data :=
  ⟨((c4_parse_post_fallbacks cHtml4 "x.html".data).1
      "Hello &amp; Hi".data (by decide)).trans (by decide),
   (c4_parse_post_fallbacks cHtml4 "x.html".data).2.2.1
      "2024-05-06".data (by decide),
   (c4_parse_post_fallbacks cHtml4 "x.html".data).2.2.2.2.1
      "随画".data (by decide),
   ((c4_parse_post_fallbacks [] "2024-01-02-x.html".data).2.1 (by decide)).trans
      (by decide),
   ((c4_parse_post_fallbacks [] "2024-01-02-x.html".data).2.2.2.1 (by decide)).1
      "2024-01-02".data (by decide),
   (c4_parse_post_fallbacks [] "2024-01-02-x.html".data).2.2.2.2.2.1 (by decide)⟩

/-! ## Claim C9 -/

theorem infix_append_right {l m y : List α} (h : l <:+: m) : l <:+: m ++ y := by
  obtain ⟨s, t, hst⟩ := h
  exact ⟨s, t ++ y, by rw [← hst]; simp [List.append_assoc]⟩

theorem infix_append_left {l m x : List α} (h : l <:+: m) : l <:+: x ++ m := by
  obtain ⟨s, t, hst⟩ := h
  exact ⟨x ++ s, t, by rw [← hst]; simp [List.append_assoc]⟩

theorem pyRstrip_append_ws {c : Char} (hc : isPyWs c = true) (z : Str) :
    pyRstrip (z ++ [c]) = pyRstrip z := by
  unfold pyRstrip
  rw [List.reverse_append]
  simp [List.dropWhile_cons, hc]

theorem pyRstrip_append_nonws {c : Char} (hc : isPyWs c = false) (z : Str) :
    pyRstrip (z ++ [c]) = z ++ [c] := by
  unfold pyRstrip
  rw [List.reverse_append]
  simp [List.dropWhile_cons, hc]

theorem lt_not_mem_escChar (a : Char) : '<' ∉ escChar a := by
  unfold escChar
  split_ifs with h1 h2 h3 h4 h5
  · decide
  · decide
  · decide
  · decide
  · decide
  · simp only [List.mem_singleton]
    intro hh
    exact h2 hh.symm

theorem lt_not_mem_pyEscape (s : Str) : '<' ∉ pyEscape s := by
  unfold pyEscape
  rw [List.mem_flatMap]
  rintro ⟨a, _, hmem⟩
  exact lt_not_mem_escChar a hmem

theorem bodyHtml_eq_of_concat {note : Note} {qs : List Str} {q : Str}
    (h : note.body_paragraphs = qs ++ [q]) :
    bodyHtml note =
      List.flatten (qs.map paraBlock) ++
        ("      <p>\n        ".data ++ pyEscape q ++ "\n      </p".data ++ ['>']) := by
  unfold bodyHtml paraBlocks
  rw [h, if_neg (by simp), List.map_append, List.flatten_append]
  simp only [List.map_cons, List.map_nil, List.flatten_cons, List.flatten_nil,
    List.append_nil]
  have hpb : paraBlock q =
      ("      <p>\n        ".data ++ pyEscape q ++ "\n      </p".data ++ ['>']) ++ ['\n'] := by
    unfold paraBlock
    rw [show ("\n      </p>\n".data : Str) = "\n      </p".data ++ ['>'] ++ ['\n'] from rfl]
    simp [List.append_assoc]
  rw [hpb, ← List.append_assoc]
  rw [pyRstrip_append_ws (by decide)]
  have hform : List.flatten (qs.map paraBlock) ++
      ("      <p>\n        ".data ++ pyEscape q ++ "\n      </p".data ++ ['>']) =
      (List.flatten (qs.map paraBlock) ++
        ("      <p>\n        ".data ++ pyEscape q ++ "\n      </p".data)) ++ ['>'] := by
    simp [List.append_assoc]
  rw [hform, pyRstrip_append_nonws (by decide), ← hform]

theorem pyEscape_infix_bodyHtml {note : Note} {p : Str}
    (hp : p ∈ note.body_paragraphs) : pyEscape p <:+: bodyHtml note := by
  rcases List.eq_nil_or_concat note.body_paragraphs with hnil | ⟨qs, q, hqs⟩
  · rw [hnil] at hp
    cases hp
  · rw [List.concat_eq_append] at hqs
    rw [bodyHtml_eq_of_concat hqs]
    rw [hqs] at hp
    rcases List.mem_append.mp hp with hin | hlast
    · refine infix_append_right ?_
      have h1 : pyEscape p <:+: paraBlock p :=
        ⟨"      <p>\n        ".data, "\n      </p>\n".data, rfl⟩
      refine h1.trans (List.infix_of_mem_flatten ?_)
      exact List.mem_map.mpr ⟨p, hin, rfl⟩
    · rw [List.mem_singleton] at hlast
      subst hlast
      refine infix_append_left ?_
      exact ⟨"      <p>\n        ".data, "\n      </p".data ++ ['>'], by
        simp [List.append_assoc]⟩

theorem bodyHtml_infix_render (note : Note) :
    bodyHtml note <:+: render_note_html note := by
  unfold render_note_html
  exact ⟨_, _, rfl⟩

/-- The concrete raw note of the parser example. -/
def cRaw9 : Str := "My Title\n2024-03-05\nline one\n\nline two\n".data

/-- C9 (evaluation at the failing input): the example raw file parses to
exactly the two claimed paragraphs, but the derived filename is
2024-03-05-My-Tile.html rather than the claimed
2024-03-05-My-Title.html, because the raw string behind INVALID_RE makes
the sanitizer delete the letters n, r and t, dropping the second t of
Title; the remaining properties hold: the renderer escapes the
markup-significant characters of paragraph text (the open bracket and the
ampersand become entities and no open bracket survives escaping) and
embeds the escaped text of every paragraph in the rendered document, and
a record with no paragraphs renders the single placeholder paragraph as
its body. -/
theorem c9_parse_and_render :
    ((parse_txt cRaw9).map Note.body_paragraphs =
      some ["line one".data, "line two".data]) ∧
    ((parse_txt cRaw9).map Note.html_filename =
      some "2024-03-05-My-Tile.html".data) ∧
    ((parse_txt cRaw9).map Note.html_filename ≠
      some "2024-03-05-My-Title.html".data) ∧
    (∀ s : Str, pyEscape ('<' :: s) = "&lt;".data ++ pyEscape s) ∧
    (∀ s : Str, pyEscape ('&' :: s) = "&amp;".data ++ pyEscape s) ∧
    (∀ s : Str, '<' ∉ pyEscape s) ∧
    (∀ (note : Note), ∀ p ∈ note.body_paragraphs,
      pyEscape p <:+: render_note_html note) ∧
    (∀ note : Note, note.body_paragraphs = [] →
      bodyHtml note = "      <p>（正文为空）</p>".data) := by
  refine ⟨by decide, by decide, by decide, fun s => rfl, fun s => rfl,
    lt_not_mem_pyEscape, ?_, ?_⟩
  · intro note p hp
    exact (pyEscape_infix_bodyHtml hp).trans (bodyHtml_infix_render note)
  · intro note h
    unfold bodyHtml
    rw [h]
    decide

/-- A concrete note with a markup-significant paragraph. -/
def cNote9 : Note :=
  ⟨"T".data, "2024-03-05".data, ["a<b".data], "2024-03-05-T.html".data,
    "./notes/2024-03-05-T.html".data⟩

/-- A concrete note with an empty body. -/
def cNoteEmpty9 : Note :=
  ⟨"T".data, "2024-03-05".data, [], "2024-03-05-T.html".data,
    "./notes/2024-03-05-T.html".data⟩

/-- C9 witness: the escaped paragraph text occurs in the rendered document
of a concrete note, and a concrete empty-bodied note renders the
placeholder body. -/
theorem c9_witness :
    pyEscape "a<b".data <:+: render_note_html cNote9 ∧
    bodyHtml cNoteEmpty9 = "      <p>（正文为空）</p>".data :=
  ⟨c9_parse_and_render.2.2.2.2.2.2.1 cNote9 "a<b".data (by decide),
   c9_parse_and_render.2.2.2.2.2.2.2 cNoteEmpty9 (by decide)⟩

end Site
